import Mathlib

/-!
# powerkids: sprite-sheet slicing, descriptor binding, tile map and the character state machine

A shallow embedding of `main.go` and `maps.go`.

Modelling conventions.

* `float64` values (pixel coordinates, the frame width, velocities, elapsed time, the animation
  counter) are exact rationals `ℚ`, which agrees with the code wherever the values are integers
  below `2^53` and wherever only signs and assignments matter.  The slicing loop is given a second
  time with its float64 sums and differences rounded (`sliceSheet64`), for the statements about
  the exact corners and sizes of the frames.  Infinities and NaN are outside the model.
* Go `int` values read from descriptor records and the `animState` enumeration are `Int`.
* A Go slice is a window on a backing array with a length and a capacity (`Slice`).  The growth
  policy of `append` belongs to the Go runtime and is a parameter `grow` of every function that
  appends: `grow size c` is the capacity chosen when a full backing array of capacity `c` with
  elements of `size` bytes has to be replaced.
* A Go map with missing-key-gives-zero-value lookup is a total function.
* The two runtime panics of indexing and slicing, an error returned by a function and a loop that
  does not finish within the given fuel are the constructors of `Fault`; fallible code returns
  `Except Fault _`.
* Files are inputs: a decoded picture is its bounds, a CSV file is the list of its records, a text
  file is a reader holding the lines not yet consumed.
* `fmt.Printf` output is not modelled.
-/

namespace Powerkids

/-! ## Geometry (`pixel.Vec`, `pixel.Rect`) -/

/-- A `pixel.Vec`: a point or displacement with coordinates `X` and `Y`. -/
structure Vec where
  X : ℚ
  Y : ℚ
  deriving DecidableEq, Repr

/-- A `pixel.Rect`: an axis aligned rectangle given by its `Min` and `Max` corners. -/
structure Rect where
  Min : Vec
  Max : Vec
  deriving DecidableEq, Repr

/-- The zero value `pixel.Rect{}`. -/
instance : Inhabited Rect := ⟨⟨⟨0, 0⟩, ⟨0, 0⟩⟩⟩

/-- The constructor `pixel.R(minX, minY, maxX, maxY)`; the result is not normalised. -/
def R (minX minY maxX maxY : ℚ) : Rect := ⟨⟨minX, minY⟩, ⟨maxX, maxY⟩⟩

/-- The translation `Rect.Moved(delta)`. -/
def Rect.Moved (r : Rect) (delta : Vec) : Rect :=
  ⟨⟨r.Min.X + delta.X, r.Min.Y + delta.Y⟩, ⟨r.Max.X + delta.X, r.Max.Y + delta.Y⟩⟩

/-! ## Results of fallible code -/

/-- The ways in which a function of the program fails to deliver a value. -/
inductive Fault where
  /-- The runtime panic `index out of range` of an index expression `s[i]`. -/
  | indexOutOfRange
  /-- The runtime panic `slice bounds out of range` of a slice expression `s[lo:hi]`. -/
  | sliceBoundsOutOfRange
  /-- An `error` value returned to the caller, with its message. -/
  | returned (msg : String)
  /-- The loop did not finish within the fuel it was given. -/
  | outOfFuel
  deriving DecidableEq, Repr

/-- Both runtime panics are reported by Go as index-out-of-range errors. -/
def Fault.isIndexPanic : Fault → Bool
  | .indexOutOfRange => true
  | .sliceBoundsOutOfRange => true
  | _ => false

/-! ## Go slices -/

/-- A Go slice: `arr` is the backing array seen from the first element of the slice, so that
`arr.length` is the capacity, and `len` is the length. -/
structure Slice (α : Type) where
  arr : List α
  len : Nat
  deriving DecidableEq, Repr

namespace Slice

variable {α : Type}

/-- The `nil` slice, the zero value of a slice type. -/
def nil : Slice α := ⟨[], 0⟩

instance : Inhabited (Slice α) := ⟨nil⟩

/-- The capacity `cap(s)`. -/
def cap (s : Slice α) : Nat := s.arr.length

/-- The elements `s[0], ..., s[len(s)-1]`. -/
def toList (s : Slice α) : List α := s.arr.take s.len

/-- The builtin `append(s, x)`.  When the capacity is exhausted a new backing array is allocated,
of capacity `grow (cap s)` but at least `len s + 1`, and the unused tail holds zero values. -/
def append [Inhabited α] (grow : Nat → Nat) (s : Slice α) (x : α) : Slice α :=
  if s.len < s.arr.length then
    ⟨s.arr.set s.len x, s.len + 1⟩
  else
    ⟨(s.arr.take s.len ++ [x]) ++ List.replicate (grow s.arr.length - (s.len + 1)) default,
      s.len + 1⟩

/-- The index expression `s[i]`: it panics unless `0 <= i < len(s)`. -/
def index (s : Slice α) (i : Int) : Except Fault α :=
  if 0 ≤ i ∧ i < s.len then
    match s.arr.get? i.toNat with
    | some x => .ok x
    | none => .error .indexOutOfRange
  else .error .indexOutOfRange

/-- The slice expression `s[lo:hi]`: it panics unless `0 <= lo <= hi <= cap(s)`. -/
def slice (s : Slice α) (lo hi : Int) : Except Fault (Slice α) :=
  if 0 ≤ lo ∧ lo ≤ hi ∧ hi ≤ s.arr.length then
    .ok ⟨s.arr.drop lo.toNat, (hi - lo).toNat⟩
  else .error .sliceBoundsOutOfRange

end Slice

/-- The growth policy used in the worked examples: the capacity doubles. -/
def doubling (_size c : Nat) : Nat := 2 * c

/-! ## The slicing loop (`main.go` 63-76, `maps.go` 51-64) -/

/-- The inner loop `for x := 0.0; x+frameWidth <= Max.X; x += frameWidth`, entered with the
current `x` and the `row` built so far.  A `pixel.Rect` is four `float64`, 32 bytes. -/
def sliceRow (grow : Nat → Nat → Nat) (frameWidth maxX y : ℚ) : Nat → ℚ → Slice Rect →
    Except Fault (Slice Rect)
  | 0, _, _ => .error .outOfFuel
  | fuel + 1, x, row =>
    if x + frameWidth ≤ maxX then
      sliceRow grow frameWidth maxX y fuel (x + frameWidth)
        (row.append (grow 32) (R x y (x + frameWidth) (y + frameWidth)))
    else .ok row

/-- The outer loop `for y := Max.Y-frameWidth; y >= frameWidth; y -= frameWidth`, entered with the
current `y` and the `frames` built so far.  Every row starts from `var row []pixel.Rect`; a
slice header is 24 bytes. -/
def sliceRows (grow : Nat → Nat → Nat) (frameWidth maxX : ℚ) : Nat → ℚ → Slice (Slice Rect) →
    Except Fault (Slice (Slice Rect))
  | 0, _, _ => .error .outOfFuel
  | fuel + 1, y, frames =>
    if y ≥ frameWidth then
      match sliceRow grow frameWidth maxX y fuel 0 Slice.nil with
      | .ok row => sliceRows grow frameWidth maxX fuel (y - frameWidth) (frames.append (grow 24) row)
      | .error e => .error e
    else .ok frames

/-- The whole slicing loop for a sheet with the given bounds: `var frames [][]pixel.Rect`
followed by the two nested loops. -/
def sliceSheet (grow : Nat → Nat → Nat) (fuel : Nat) (bounds : Rect) (frameWidth : ℚ) :
    Except Fault (Slice (Slice Rect)) :=
  sliceRows grow frameWidth bounds.Max.X fuel (bounds.Max.Y - frameWidth) Slice.nil

/-! ## Descriptor records (`main.go` 84-103, `maps.go` 73-90) -/

/-- A Go `map[string][]pixel.Rect`: a missing key reads as the `nil` slice. -/
abbrev FrameMap := String → Slice Rect

/-- The result of `make(map[string][]pixel.Rect)`. -/
def emptyFrameMap : FrameMap := fun _ => Slice.nil

/-- One record `name,row,startFrame,endFrame` of a descriptor file as the loop body sees it:
`name` is field 0 and `row`, `start`, `end_` are the values `strconv.Atoi` returns for fields
1 to 3 (the conversion error is discarded by the source). -/
structure Desc where
  name : String
  row : Int
  start : Int
  end_ : Int
  deriving DecidableEq, Repr

/-- A descriptor file as read by `csv.Reader`: the records delivered before `io.EOF`, and the
error `Read` reports after them, if any. -/
structure CsvFile where
  records : List Desc
  bad : Option String
  deriving DecidableEq, Repr

/-- The assignment `anims[name] = frames[row][start : end+1]` at the end of the loop body. -/
def bindRecord (frames : Slice (Slice Rect)) (anims : FrameMap) (d : Desc) :
    Except Fault FrameMap :=
  match frames.index d.row with
  | .error e => .error e
  | .ok row =>
    match row.slice d.start (d.end_ + 1) with
    | .error e => .error e
    | .ok s => .ok (Function.update anims d.name s)

/-- The loop `for { anim, err := desc.Read(); ... }` over the records of a descriptor file. -/
def bindRecords (frames : Slice (Slice Rect)) : List Desc → Option String → FrameMap →
    Except Fault FrameMap
  | [], none, anims => .ok anims
  | [], some msg, _ => .error (.returned msg)
  | d :: rest, bad, anims =>
    match bindRecord frames anims d with
    | .error e => .error e
    | .ok anims1 => bindRecords frames rest bad anims1

/-- The deferred `errors.Wrap(err, msg)`: a returned error gets the prefix, a panic passes through
untouched. -/
def wrapFault (msg : String) : Fault → Fault
  | .returned e => .returned (msg ++ ": " ++ e)
  | f => f

/-- The function `loadAnimationSheet(sheetPath, descPath, frameWidth)`.  `sheetFile` is the outcome
of opening and decoding the sheet (the bounds of the picture, or the error), `descFile` the outcome
of opening the descriptor. -/
def loadAnimationSheet (grow : Nat → Nat → Nat) (fuel : Nat) (sheetFile : Except String Rect)
    (descFile : Except String CsvFile) (frameWidth : ℚ) : Except Fault (Rect × FrameMap) :=
  match sheetFile with
  | .error e => .error (wrapFault "error loading animation sheet" (.returned e))
  | .ok sheet =>
    match sliceSheet grow fuel sheet frameWidth with
    | .error f => .error f
    | .ok frames =>
      match descFile with
      | .error e => .error (wrapFault "error loading animation sheet" (.returned e))
      | .ok desc =>
        match bindRecords frames desc.records desc.bad emptyFrameMap with
        | .error f => .error (wrapFault "error loading animation sheet" f)
        | .ok anims => .ok (sheet, anims)

/-! ## The character: physics and animation (`main.go` 21-28, 113-181) -/

/-- The type `animState`, a Go `int`. -/
abbrev animState := Int

/-- Constant `south` (iota 0). -/
def south : animState := 0
/-- Constant `east` (iota 1). -/
def east : animState := 1
/-- Constant `west` (iota 2). -/
def west : animState := 2
/-- Constant `north` (iota 3). -/
def north : animState := 3

/-- The struct `sarahPhys`. -/
structure sarahPhys where
  rect : Rect
  vel : Vec
  ground : Bool
  dir : animState
  deriving DecidableEq, Repr

/-- The method `(*sarahPhys).update(dt, ctrl)`. -/
def sarahPhys.update (gp : sarahPhys) (_dt : ℚ) (ctrl : Vec) : sarahPhys :=
  let gp1 : sarahPhys := { gp with vel := ctrl }
  let gp2 : sarahPhys := { gp1 with rect := gp1.rect.Moved ctrl }
  if gp2.vel.X > 0 then { gp2 with dir := east }
  else if gp2.vel.X < 0 then { gp2 with dir := west }
  else if gp2.vel.Y < 0 then { gp2 with dir := south }
  else if gp2.vel.Y > 0 then { gp2 with dir := north }
  else gp2

/-- The struct `sarahAnimation`, without the `sheet` picture and the cached `sprite`, which
`update` neither reads nor writes. -/
structure sarahAnimation where
  anims : FrameMap
  rate : ℚ
  state : animState
  counter : ℚ
  dir : ℚ
  frame : Rect

/-- The method `(*sarahAnimation).update(dt, phys)`. -/
def sarahAnimation.update (sa : sarahAnimation) (dt : ℚ) (phys : sarahPhys) :
    Except Fault sarahAnimation :=
  let sa1 : sarahAnimation := { sa with counter := sa.counter + dt }
  let newState : animState := phys.dir
  let sa2 : sarahAnimation :=
    if sa1.state ≠ newState then { sa1 with state := newState, counter := 0 } else sa1
  if sa2.state = south then
    match (sa2.anims "South").index 0 with
    | .ok f => .ok { sa2 with frame := f }
    | .error e => .error e
  else if sa2.state = east then
    match (sa2.anims "East").index 0 with
    | .ok f => .ok { sa2 with frame := f }
    | .error e => .error e
  else if sa2.state = north then
    match (sa2.anims "North").index 0 with
    | .ok f => .ok { sa2 with frame := f }
    | .error e => .error e
  else if sa2.state = west then
    match (sa2.anims "West").index 0 with
    | .ok f => .ok { sa2 with frame := f }
    | .error e => .error e
  else .ok sa2

/-- The character as `run` holds it: the physics and the animator. -/
structure Character where
  phys : sarahPhys
  anim : sarahAnimation

/-- The character `run` creates before the loop: `phys` has only its rectangle set,
`sarahAnim` its animations, `rate` and `dir`; every other field has its zero value. -/
def initialCharacter (anims : FrameMap) : Character :=
  { phys := { rect := R (-32) (-32) 32 32, vel := ⟨0, 0⟩, ground := false, dir := 0 }
    anim := { anims := anims, rate := 1 / 10, state := 0, counter := 0, dir := 1,
              frame := default } }

/-- One tick of the loop in `run` (`main.go` 308-309): `phys.update(dt, ctrl)` followed by
`sarahAnim.update(dt, phys)`. -/
def tick (c : Character) (dt : ℚ) (ctrl : Vec) : Except Fault Character :=
  let phys := c.phys.update dt ctrl
  match c.anim.update dt phys with
  | .ok anim => .ok { phys := phys, anim := anim }
  | .error e => .error e

/-- A run of ticks, one per pair of elapsed time and control vector. -/
def ticks (c : Character) : List (ℚ × Vec) → Except Fault Character
  | [] => .ok c
  | (dt, ctrl) :: rest =>
    match tick c dt ctrl with
    | .ok c1 => ticks c1 rest
    | .error e => .error e

/-! ## The tile map (`maps.go`) -/

/-- A text file opened for reading: the lines a `bufio.Scanner` on it will still deliver, and
the error the scanner reports after them, if any.  Reading advances the file. -/
structure Reader where
  lines : List String
  bad : Option String
  deriving DecidableEq, Repr

/-- The loop `for buf.Scan()` of `mapSizeFinder` over the lines, from the current `x` and `y`:
`len(mapRow)` is the length in bytes. -/
def scanSize : List String → Int → Int → Int × Int
  | [], x, y => (x, y)
  | mapRow :: rest, x, y =>
    scanSize rest (if (mapRow.utf8ByteSize : Int) > x then (mapRow.utf8ByteSize : Int) else x)
      (y + 1)

/-- The function `mapSizeFinder(mapFile)`.  It returns its result together with the reader as it
leaves it: the scanner has read the file up to its end. -/
def mapSizeFinder (mapFile : Reader) : Except String (Int × Int) × Reader :=
  let xy := scanSize mapFile.lines 0 0
  match mapFile.bad with
  | some e => (.error e, { lines := [], bad := some e })
  | none => (.ok xy, { lines := [], bad := none })

/-- The table `mapCharNameMap`; a character without an entry reads as the empty string. -/
def mapCharNameMap (char : Char) : String :=
  if char = ' ' then "CastleEmpty"
  else if char = 'O' then "CastleWindow"
  else if char = 'D' then "CastleEmpty"
  else if char = 'C' then "CastleCross"
  else if char = 'W' then "CastleMiddle"
  else ""

/-- A `pixelgl.Canvas` as far as `NewMapFromText` is concerned: its bounds and the sprites drawn
on it, each a frame of the sheet with the vector of its `pixel.IM.Moved` matrix, oldest first. -/
structure Canvas where
  bounds : Rect
  draws : List (Rect × Vec)
  deriving DecidableEq, Repr

/-- The two lookups `tileName := mapCharNameMap[char]` and `tileFrame := mapTiles[tileName][0]`
(`maps.go` 121-122). -/
def tileFrameOf (mapTiles : FrameMap) (char : Char) : Except Fault Rect :=
  let tileName := mapCharNameMap char
  (mapTiles tileName).index 0

/-- The loop `for _, char := range rowText` (`maps.go` 120-126), from the current canvas and
`cursorX`; it returns the canvas and `cursorX` it ends with. -/
def paintRow (mapTiles : FrameMap) (cursorY : ℚ) : List Char → Canvas → ℚ →
    Except Fault (Canvas × ℚ)
  | [], canvas, cursorX => .ok (canvas, cursorX)
  | char :: rest, canvas, cursorX =>
    match tileFrameOf mapTiles char with
    | .error e => .error e
    | .ok tileFrame =>
      paintRow mapTiles cursorY rest
        { canvas with draws := canvas.draws ++ [(tileFrame, ⟨cursorX, cursorY⟩)] } (cursorX + 32)

/-- The loop `for mapScanner.Scan()` (`maps.go` 118-129) over the lines the scanner delivers. -/
def paintRows (mapTiles : FrameMap) : List String → Canvas → ℚ → ℚ → Except Fault Canvas
  | [], canvas, _, _ => .ok canvas
  | rowText :: rest, canvas, cursorX, cursorY =>
    match paintRow mapTiles cursorY rowText.toList canvas cursorX with
    | .error e => .error e
    | .ok (canvas1, _) => paintRows mapTiles rest canvas1 0 (cursorY - 32)

/-- The function `NewMapFromText(mapFilePath, spriteSheetPath, spriteMapPath, frameWidth)`.
`spriteSheet` is the outcome of `loadPicture`, `spriteMap` and `mapFile` the outcomes of opening
the descriptor and the map text.  The second scanner is created on the same `mapFile` that
`mapSizeFinder` has read, so it delivers the lines `mapSizeFinder` left. -/
def NewMapFromText (grow : Nat → Nat → Nat) (fuel : Nat) (mapFile : Except String Reader)
    (spriteSheet : Except String Rect) (spriteMap : Except String CsvFile) (frameWidth : ℚ) :
    Except Fault Canvas :=
  match spriteSheet with
  | .error e => .error (wrapFault "error loading map from text" (.returned e))
  | .ok sheet =>
    match sliceSheet grow fuel sheet frameWidth with
    | .error f => .error f
    | .ok frames =>
      match spriteMap with
      | .error e => .error (wrapFault "error loading map from text" (.returned e))
      | .ok desc =>
        match bindRecords frames desc.records desc.bad emptyFrameMap with
        | .error f => .error (wrapFault "error loading map from text" f)
        | .ok mapTiles =>
          match mapFile with
          | .error e => .error (wrapFault "error loading map from text" (.returned e))
          | .ok file =>
            match mapSizeFinder file with
            | (.error e, _) => .error (wrapFault "error loading map from text" (.returned e))
            | (.ok (mapWidth, mapHeight), file1) =>
              let mapBounds := R 0 0 ((mapWidth * 32 : Int) : ℚ) ((mapHeight * 32 : Int) : ℚ)
              let mapCanvas : Canvas := { bounds := mapBounds, draws := [] }
              paintRows mapTiles file1.lines mapCanvas 0 ((mapHeight * 32 : Int) : ℚ)

/-! ## Quantities used to state the properties -/

/-- A slice is well formed when its length does not exceed its capacity. -/
def Slice.WF {α : Type} (s : Slice α) : Prop := s.len ≤ s.arr.length

/-- Number of times the column loop runs on a sheet with `Max.X = maxX`. -/
def gridCols (maxX frameWidth : ℚ) : Nat := (⌊maxX / frameWidth⌋).toNat

/-- Number of times the row loop runs on a sheet with `Max.Y = maxY`. -/
def gridRows (maxY frameWidth : ℚ) : Nat := (⌊maxY / frameWidth⌋ - 1).toNat

/-- The rectangle with min corner `(c*F, H-(r+1)*F)` and max corner `((c+1)*F, H-r*F)`. -/
def frameAt (maxY frameWidth : ℚ) (r c : Nat) : Rect :=
  R (c * frameWidth) (maxY - (r + 1) * frameWidth) ((c + 1) * frameWidth) (maxY - r * frameWidth)

/-- The grid of `gridRows` rows of `gridCols` frames each. -/
def gridOf (bounds : Rect) (frameWidth : ℚ) : List (List Rect) :=
  (List.range (gridRows bounds.Max.Y frameWidth)).map fun r =>
    (List.range (gridCols bounds.Max.X frameWidth)).map fun c => frameAt bounds.Max.Y frameWidth r c

/-- The animator's four animations are bound to non-empty slices. -/
def FourBound (anims : FrameMap) : Prop :=
  (anims "South").toList ≠ [] ∧ (anims "East").toList ≠ [] ∧
    (anims "North").toList ≠ [] ∧ (anims "West").toList ≠ []

/-- A table of animations in which each of the four directions is bound to one frame. -/
def sampleAnims : FrameMap := fun name =>
  if name = "South" then ⟨[R 0 128 64 192], 1⟩
  else if name = "East" then ⟨[R 0 64 64 128], 1⟩
  else if name = "North" then ⟨[R 64 128 128 192], 1⟩
  else if name = "West" then ⟨[R 64 64 128 128], 1⟩
  else Slice.nil

/-- The record lies in the grid: `row` is a valid row index and
`0 <= start <= end < number of columns`. -/
def InGrid (sheet : Rect) (frameWidth : ℚ) (d : Desc) : Prop :=
  0 ≤ d.row ∧ d.row < gridRows sheet.Max.Y frameWidth ∧
    0 ≤ d.start ∧ d.start ≤ d.end_ ∧ d.end_ < gridCols sheet.Max.X frameWidth

/-- A tile descriptor with the records `CastleMiddle,0,0,0` and `CastleEmpty,0,1,1`. -/
def castleDesc : CsvFile :=
  { records := [⟨"CastleMiddle", 0, 0, 0⟩, ⟨"CastleEmpty", 0, 1, 1⟩], bad := none }

/-! ## The slicing loop with float64 rounding made explicit

A finite `float64` is an integer multiple of `2^-1074`; it is represented by that integer.  Sums
and differences are computed exactly and rounded to 53 significant bits, ties to even, as IEEE 754
prescribes.  Overflow to infinity and NaN are outside the model. -/

/-- The number of units `2^-1074` in `1.0`. -/
def unit64 : Nat := 2 ^ 1074

/-- One step of the search for the rounding position: the position moves up by `k` bits when
at least 53 significant bits remain above it. -/
def shiftStep (a s k : Nat) : Nat := if 2 ^ 52 ≤ a / 2 ^ (s + k) then s + k else s

/-- The number of low bits of `a` that do not fit in 53 significant bits. -/
def shiftOf (a : Nat) : Nat :=
  [2048, 1024, 512, 256, 128, 64, 32, 16, 8, 4, 2, 1].foldl (shiftStep a) 0

/-- Rounding of an exact result to the nearest `float64`, ties to even. -/
def round64 (n : Int) : Int :=
  let a := n.natAbs
  let s := shiftOf a
  let q := a / 2 ^ s
  let r := a % 2 ^ s
  let q1 := if 2 ^ s < 2 * r ∨ (2 * r = 2 ^ s ∧ q % 2 = 1) then q + 1 else q
  if n < 0 then -((q1 * 2 ^ s : Nat) : Int) else ((q1 * 2 ^ s : Nat) : Int)

/-- The `float64` sum `a + b`. -/
def add64 (a b : Int) : Int := round64 (a + b)

/-- The `float64` difference `a - b`. -/
def sub64 (a b : Int) : Int := round64 (a - b)

/-- The `float64` that holds the integer `v`. -/
def ofInt64 (v : Int) : Int := v * (unit64 : Int)

/-- A `pixel.Vec` of `float64` coordinates. -/
structure Vec64 where
  X : Int
  Y : Int
  deriving DecidableEq, Repr

/-- A `pixel.Rect` of `float64` coordinates. -/
structure Rect64 where
  Min : Vec64
  Max : Vec64
  deriving DecidableEq, Repr

/-- The zero value `pixel.Rect{}`. -/
instance : Inhabited Rect64 := ⟨⟨⟨0, 0⟩, ⟨0, 0⟩⟩⟩

/-- The constructor `pixel.R(minX, minY, maxX, maxY)` on `float64` coordinates. -/
def R64 (minX minY maxX maxY : Int) : Rect64 := ⟨⟨minX, minY⟩, ⟨maxX, maxY⟩⟩

/-- The width `Rect.W()`, a `float64` difference. -/
def Rect64.W (r : Rect64) : Int := sub64 r.Max.X r.Min.X

/-- The height `Rect.H()`, a `float64` difference. -/
def Rect64.H (r : Rect64) : Int := sub64 r.Max.Y r.Min.Y

/-- The inner loop `for x := 0.0; x+frameWidth <= Max.X; x += frameWidth` in `float64`. -/
def sliceRow64 (grow : Nat → Nat → Nat) (frameWidth maxX y : Int) : Nat → Int → Slice Rect64 →
    Except Fault (Slice Rect64)
  | 0, _, _ => .error .outOfFuel
  | fuel + 1, x, row =>
    if add64 x frameWidth ≤ maxX then
      sliceRow64 grow frameWidth maxX y fuel (add64 x frameWidth)
        (row.append (grow 32) (R64 x y (add64 x frameWidth) (add64 y frameWidth)))
    else .ok row

/-- The outer loop `for y := Max.Y-frameWidth; y >= frameWidth; y -= frameWidth` in
`float64`. -/
def sliceRows64 (grow : Nat → Nat → Nat) (frameWidth maxX : Int) : Nat → Int →
    Slice (Slice Rect64) → Except Fault (Slice (Slice Rect64))
  | 0, _, _ => .error .outOfFuel
  | fuel + 1, y, frames =>
    if y ≥ frameWidth then
      match sliceRow64 grow frameWidth maxX y fuel 0 Slice.nil with
      | .ok row =>
        sliceRows64 grow frameWidth maxX fuel (sub64 y frameWidth) (frames.append (grow 24) row)
      | .error e => .error e
    else .ok frames

/-- The whole slicing loop in `float64` for a sheet with the given bounds. -/
def sliceSheet64 (grow : Nat → Nat → Nat) (fuel : Nat) (bounds : Rect64) (frameWidth : Int) :
    Except Fault (Slice (Slice Rect64)) :=
  sliceRows64 grow frameWidth bounds.Max.X fuel (sub64 bounds.Max.Y frameWidth) Slice.nil

/-- The frame `frames[r][c]` of a sliced sheet, if the slicing returned and both indices are
valid. -/
def frameOf64 (frames : Except Fault (Slice (Slice Rect64))) (r c : Int) : Option Rect64 :=
  match frames with
  | .ok g =>
    match g.index r with
    | .ok row =>
      match row.index c with
      | .ok f => some f
      | .error _ => none
    | .error _ => none
  | .error _ => none

/-- The `float64` nearest to `0.1`: `3602879701896397 * 2^-55`. -/
def tenth64 : Int := ((3602879701896397 * 2 ^ 1019 : Nat) : Int)

/-! ## Lemmas on slices and the slicing loop -/

theorem take_succ_set {α : Type} (x : α) : ∀ (l : List α) (n : Nat), n < l.length →
    (l.set n x).take (n + 1) = l.take n ++ [x]
  | [], _, h => by simp at h
  | _ :: _, 0, _ => by simp
  | a :: l, n + 1, h => by
    have h1 : n < l.length := by simpa using h
    simp [take_succ_set x l n h1]

theorem take_length_succ_append {α : Type} (x : α) (t : List α) : ∀ l : List α,
    (l ++ x :: t).take (l.length + 1) = l ++ [x]
  | [] => by simp
  | a :: l => by simp [take_length_succ_append x t l]

theorem Slice.nil_WF {α : Type} : (Slice.nil : Slice α).WF := by
  simp [Slice.WF, Slice.nil]

theorem Slice.nil_toList {α : Type} : (Slice.nil : Slice α).toList = [] := by
  simp [Slice.toList, Slice.nil]

theorem Slice.toList_length {α : Type} (s : Slice α) (h : s.WF) : s.toList.length = s.len := by
  unfold Slice.WF at h
  simp [Slice.toList, h]

theorem Slice.append_WF {α : Type} [Inhabited α] (g : Nat → Nat) (s : Slice α) (x : α)
    (h : s.WF) : (s.append g x).WF := by
  unfold Slice.WF at h
  unfold Slice.append Slice.WF
  split
  · simp; omega
  · simp [h]

theorem Slice.append_toList {α : Type} [Inhabited α] (g : Nat → Nat) (s : Slice α) (x : α)
    (h : s.WF) : (s.append g x).toList = s.toList ++ [x] := by
  unfold Slice.WF at h
  unfold Slice.append Slice.toList
  split
  · rename_i hlt
    exact take_succ_set x s.arr s.len hlt
  · rename_i hlt
    have hl : s.len = s.arr.length := by omega
    simp only [hl, List.take_length, List.append_assoc, List.singleton_append]
    exact take_length_succ_append x _ s.arr

theorem sliceRow_spec (grow : Nat → Nat → Nat) (F maxX y : ℚ) (hF : 0 < F) :
    ∀ (n : Nat) (x : ℚ) (row : Slice Rect) (fuel : Nat), row.WF →
      (n = 0 ∨ x + n * F ≤ maxX) → maxX < x + (n + 1) * F → n < fuel →
      ∃ row1, sliceRow grow F maxX y fuel x row = .ok row1 ∧ row1.WF ∧
        row1.toList = row.toList ++
          (List.range n).map (fun k : Nat => R (x + k * F) y (x + (k + 1) * F) (y + F)) := by
  intro n
  induction n with
  | zero =>
    intro x row fuel hwf _ hlt hfuel
    obtain ⟨f, rfl⟩ : ∃ f, fuel = f + 1 := ⟨fuel - 1, by omega⟩
    refine ⟨row, ?_, hwf, by simp⟩
    have : ¬ (x + F ≤ maxX) := by
      simp only [Nat.cast_zero, zero_add, one_mul] at hlt
      exact not_le.mpr hlt
    simp [sliceRow, this]
  | succ n ih =>
    intro x row fuel hwf hle hlt hfuel
    obtain ⟨f, rfl⟩ : ∃ f, fuel = f + 1 := ⟨fuel - 1, by omega⟩
    have hle1 : x + ((n : ℚ) + 1) * F ≤ maxX := by
      rcases hle with h | h
      · omega
      · push_cast at h; exact h
    have hnF : 0 ≤ (n : ℚ) * F := mul_nonneg (Nat.cast_nonneg n) hF.le
    have hstep : x + F ≤ maxX := by nlinarith
    obtain ⟨row1, h1, h2, h3⟩ := ih (x + F)
      (row.append (grow 32) (R x y (x + F) (y + F))) f (Slice.append_WF _ _ _ hwf)
      (Or.inr (by linarith)) (by push_cast at hlt; linarith) (by omega)
    refine ⟨row1, ?_, h2, ?_⟩
    · simp only [sliceRow, hstep, if_true]
      exact h1
    · rw [h3, Slice.append_toList _ _ _ hwf, List.range_succ_eq_map]
      simp only [List.append_assoc, List.singleton_append, List.map_cons, List.map_map]
      congr 1
      congr 1
      · simp
      · apply List.map_congr_left
        intro k _
        simp only [Function.comp, Nat.cast_succ]
        congr 1 <;> ring

theorem sliceRows_spec (grow : Nat → Nat → Nat) (F maxX : ℚ) (hF : 0 < F) (n : Nat)
    (hn : n = 0 ∨ (n : ℚ) * F ≤ maxX) (hn1 : maxX < ((n : ℚ) + 1) * F) :
    ∀ (m : Nat) (y : ℚ) (frames : Slice (Slice Rect)) (fuel : Nat), frames.WF →
      (∀ s ∈ frames.toList, s.WF) → (m = 0 ∨ (m : ℚ) * F ≤ y) → y < ((m : ℚ) + 1) * F →
      m + n < fuel →
      ∃ frames1, sliceRows grow F maxX fuel y frames = .ok frames1 ∧ frames1.WF ∧
        (∀ s ∈ frames1.toList, s.WF) ∧
        frames1.toList.map Slice.toList = frames.toList.map Slice.toList ++
          (List.range m).map (fun r : Nat => (List.range n).map (fun c : Nat =>
            R (c * F) (y - r * F) ((c + 1) * F) (y - r * F + F))) := by
  intro m
  induction m with
  | zero =>
    intro y frames fuel hwf hall _ hlt hfuel
    obtain ⟨f, rfl⟩ : ∃ f, fuel = f + 1 := ⟨fuel - 1, by omega⟩
    refine ⟨frames, ?_, hwf, hall, by simp⟩
    have : ¬ (F ≤ y) := by
      simp only [Nat.cast_zero, zero_add, one_mul] at hlt
      exact not_le.mpr hlt
    simp [sliceRows, this]
  | succ m ih =>
    intro y frames fuel hwf hall hle hlt hfuel
    obtain ⟨f, rfl⟩ : ∃ f, fuel = f + 1 := ⟨fuel - 1, by omega⟩
    have hle1 : ((m : ℚ) + 1) * F ≤ y := by
      rcases hle with h | h
      · omega
      · push_cast at h; exact h
    have hmF : 0 ≤ (m : ℚ) * F := mul_nonneg (Nat.cast_nonneg m) hF.le
    have hstep : F ≤ y := by nlinarith
    obtain ⟨row, hr1, hr2, hr3⟩ := sliceRow_spec grow F maxX y hF n 0 Slice.nil f
      Slice.nil_WF (by rcases hn with h | h; exact Or.inl h; exact Or.inr (by linarith))
      (by linarith) (by omega)
    have hwf1 := Slice.append_WF (grow 24) frames row hwf
    have hall1 : ∀ s ∈ (frames.append (grow 24) row).toList, s.WF := by
      intro s hs
      rw [Slice.append_toList _ _ _ hwf] at hs
      rcases List.mem_append.mp hs with h | h
      · exact hall s h
      · simp only [List.mem_singleton] at h
        rw [h]; exact hr2
    obtain ⟨frames1, h1, h2, h3, h4⟩ := ih (y - F) (frames.append (grow 24) row) f hwf1 hall1
      (Or.inr (by linarith)) (by push_cast at hlt; linarith) (by omega)
    refine ⟨frames1, ?_, h2, h3, ?_⟩
    · simp only [sliceRows, ge_iff_le, hstep, if_true, hr1]
      exact h1
    · rw [h4, Slice.append_toList _ _ _ hwf, List.range_succ_eq_map]
      simp only [List.map_append, List.map_cons, List.map_nil, List.append_assoc,
        List.singleton_append, List.map_map]
      congr 1
      congr 1
      · rw [hr3, Slice.nil_toList]
        simp
      · apply List.map_congr_left
        intro r _
        apply List.map_congr_left
        intro c _
        simp only [Function.comp, Nat.cast_succ]
        congr 1 <;> ring

theorem gridCols_bounds (maxX F : ℚ) (hF : 0 < F) :
    (gridCols maxX F = 0 ∨ (gridCols maxX F : ℚ) * F ≤ maxX) ∧
      maxX < ((gridCols maxX F : ℚ) + 1) * F := by
  unfold gridCols
  have h1 : (⌊maxX / F⌋ : ℚ) ≤ maxX / F := Int.floor_le _
  have h2 : maxX / F < (⌊maxX / F⌋ : ℚ) + 1 := Int.lt_floor_add_one _
  rcases le_or_lt 0 ⌊maxX / F⌋ with h | h
  · have hc : ((⌊maxX / F⌋.toNat : ℕ) : ℚ) = (⌊maxX / F⌋ : ℚ) := by
      have := Int.toNat_of_nonneg h
      exact_mod_cast this
    rw [hc]
    constructor
    · right
      calc (⌊maxX / F⌋ : ℚ) * F ≤ maxX / F * F := mul_le_mul_of_nonneg_right h1 hF.le
        _ = maxX := div_mul_cancel₀ _ hF.ne'
    · calc maxX = maxX / F * F := (div_mul_cancel₀ _ hF.ne').symm
        _ < ((⌊maxX / F⌋ : ℚ) + 1) * F := mul_lt_mul_of_pos_right h2 hF
  · have hz : ⌊maxX / F⌋.toNat = 0 := Int.toNat_eq_zero.mpr h.le
    rw [hz]
    refine ⟨Or.inl rfl, ?_⟩
    have h3 : (⌊maxX / F⌋ : ℚ) + 1 ≤ 0 := by
      have : ⌊maxX / F⌋ + 1 ≤ 0 := by omega
      exact_mod_cast this
    have h4 : maxX / F < 0 := by linarith
    have h5 : maxX < 0 := by
      have := mul_lt_mul_of_pos_right h4 hF
      rwa [div_mul_cancel₀ _ hF.ne', zero_mul] at this
    simp only [Nat.cast_zero, zero_add, one_mul]
    linarith

theorem gridRows_bounds (maxY F : ℚ) (hF : 0 < F) :
    (gridRows maxY F = 0 ∨ (gridRows maxY F : ℚ) * F ≤ maxY - F) ∧
      maxY - F < ((gridRows maxY F : ℚ) + 1) * F := by
  have hfl : ⌊(maxY - F) / F⌋ = ⌊maxY / F⌋ - 1 := by
    have : (maxY - F) / F = maxY / F - 1 := by field_simp
    rw [this, Int.floor_sub_one]
  have h := gridCols_bounds (maxY - F) F hF
  unfold gridCols at h
  rw [hfl] at h
  exact h

/-- With enough fuel the slicing loop returns the grid `gridOf`, in well formed slices. -/
theorem sliceSheet_grid (grow : Nat → Nat → Nat) (fuel : Nat) (bounds : Rect) (F : ℚ)
    (hF : 0 < F) (hfuel : gridRows bounds.Max.Y F + gridCols bounds.Max.X F < fuel) :
    ∃ g, sliceSheet grow fuel bounds F = .ok g ∧ g.WF ∧ (∀ s ∈ g.toList, s.WF) ∧
      g.toList.map Slice.toList = gridOf bounds F := by
  obtain ⟨hc1, hc2⟩ := gridCols_bounds bounds.Max.X F hF
  obtain ⟨hr1, hr2⟩ := gridRows_bounds bounds.Max.Y F hF
  obtain ⟨g, h1, h2, h3, h4⟩ := sliceRows_spec grow F bounds.Max.X hF _ hc1 hc2
    (gridRows bounds.Max.Y F) (bounds.Max.Y - F) Slice.nil fuel Slice.nil_WF
    (by simp [Slice.nil_toList]) hr1 hr2 hfuel
  refine ⟨g, h1, h2, h3, ?_⟩
  rw [h4, Slice.nil_toList]
  simp only [List.map_nil, List.nil_append, gridOf, frameAt]
  apply List.map_congr_left
  intro r _
  apply List.map_congr_left
  intro c _
  congr 1 <;> ring

theorem Slice.index_ok_iff {α : Type} (s : Slice α) (h : s.WF) (i : Int) (x : α) :
    s.index i = .ok x ↔ 0 ≤ i ∧ i < s.len ∧ s.toList[i.toNat]? = some x := by
  unfold Slice.WF at h
  unfold Slice.index Slice.toList
  by_cases hi : 0 ≤ i ∧ i < s.len
  · have hlt : i.toNat < s.len := by omega
    have hlt2 : i.toNat < s.arr.length := by omega
    simp only [hi, and_self, if_true, true_and]
    rw [List.getElem?_take_of_lt hlt, List.get?_eq_getElem?]
    cases hx : s.arr[i.toNat]? with
    | none => simp
    | some a => simp
  · simp only [hi, if_false]
    constructor
    · intro h1; cases h1
    · intro h1; exact absurd ⟨h1.1, h1.2.1⟩ hi

theorem Slice.index_error_iff {α : Type} (s : Slice α) (h : s.WF) (i : Int) :
    (∃ e, s.index i = .error e) ↔ ¬ (0 ≤ i ∧ i < s.len) := by
  unfold Slice.WF at h
  unfold Slice.index
  by_cases hi : 0 ≤ i ∧ i < s.len
  · have hlt2 : i.toNat < s.arr.length := by omega
    simp only [hi, and_self, if_true, not_true_eq_false, iff_false, not_exists]
    intro e
    rw [List.get?_eq_getElem?, List.getElem?_eq_getElem hlt2]
    simp
  · simp [hi]

theorem gridOf_getElem (bounds : Rect) (F : ℚ) (r : Nat) (hr : r < gridRows bounds.Max.Y F) :
    (gridOf bounds F)[r]? = some ((List.range (gridCols bounds.Max.X F)).map
      fun c => frameAt bounds.Max.Y F r c) := by
  simp [gridOf, List.getElem?_map, List.getElem?_range hr]

/-- What the slicing loop delivers, by index: with enough fuel it returns `gridRows` rows of
`gridCols` frames each, and the frame at row `r`, column `c` is `frameAt r c`. -/
theorem sliceSheet_index (grow : Nat → Nat → Nat) (fuel : Nat) (bounds : Rect) (F : ℚ)
    (hF : 0 < F) (hfuel : gridRows bounds.Max.Y F + gridCols bounds.Max.X F < fuel) :
    ∃ g, sliceSheet grow fuel bounds F = .ok g ∧ g.WF ∧ g.len = gridRows bounds.Max.Y F ∧
      ∀ r : Nat, r < g.len → ∃ row, g.index r = .ok row ∧ row.WF ∧
        row.len = gridCols bounds.Max.X F ∧
        row.toList = (List.range (gridCols bounds.Max.X F)).map
          (fun c => frameAt bounds.Max.Y F r c) ∧
        ∀ c : Nat, c < row.len → row.index c = .ok (frameAt bounds.Max.Y F r c) := by
  obtain ⟨g, h1, h2, h3, h4⟩ := sliceSheet_grid grow fuel bounds F hF hfuel
  have hlen : g.len = gridRows bounds.Max.Y F := by
    rw [← Slice.toList_length g h2, ← List.length_map g.toList Slice.toList, h4]
    simp [gridOf]
  refine ⟨g, h1, h2, hlen, ?_⟩
  intro r hr
  have hr1 : r < g.toList.length := by rw [Slice.toList_length g h2]; exact hr
  have hrow : g.toList[r]? = some (g.toList[r]) := List.getElem?_eq_getElem hr1
  have hmem : g.toList[r] ∈ g.toList := List.getElem_mem hr1
  have hwf := h3 _ hmem
  have hmap : (g.toList.map Slice.toList)[r]? = some (g.toList[r]).toList := by
    simp [List.getElem?_map, hrow]
  rw [h4, gridOf_getElem bounds F r (by omega)] at hmap
  have hl : (g.toList[r]).toList = (List.range (gridCols bounds.Max.X F)).map
      (fun c => frameAt bounds.Max.Y F r c) := (Option.some.inj hmap).symm
  have hrl : (g.toList[r]).len = gridCols bounds.Max.X F := by
    rw [← Slice.toList_length _ hwf, hl]
    simp
  refine ⟨g.toList[r], ?_, hwf, hrl, hl, ?_⟩
  · rw [Slice.index_ok_iff g h2]
    refine ⟨by omega, by omega, ?_⟩
    simp
  · intro c hc
    rw [Slice.index_ok_iff _ hwf]
    refine ⟨by omega, by omega, ?_⟩
    rw [hl]
    have hc1 : c < gridCols bounds.Max.X F := by omega
    simp [List.getElem?_map, List.getElem?_range hc1]

/-- C1: on the 128 x 128 sheet with frame size 64, which divides both dimensions, the slicing
loop returns one row of two frames, the top row; `128 / 64 = 2` rows are claimed. -/
theorem sliceSheet_drops_bottom_row :
    ∃ g, sliceSheet doubling 4 (R 0 0 128 128) 64 = .ok g ∧
      g.toList.map Slice.toList = [[R 0 64 64 128, R 64 64 128 128]] ∧
      g.len = 1 ∧ ⌊(128 : ℚ) / 64⌋ = 2 := by
  have h : sliceSheet doubling 4 (R 0 0 128 128) 64 =
      .ok ⟨[⟨[R 0 64 64 128, R 64 64 128 128], 2⟩], 1⟩ := by
    norm_num [sliceSheet, sliceRows, sliceRow, Slice.append, Slice.nil, R, doubling]
  refine ⟨_, h, ?_, rfl, ?_⟩
  · simp [Slice.toList]
  · norm_num

/-! ## The character state machine -/

theorem Slice.index_zero_of_toList_ne_nil {α : Type} (s : Slice α) (h : s.toList ≠ []) :
    ∃ x, s.index 0 = .ok x ∧ s.toList.head? = some x := by
  unfold Slice.toList at h
  unfold Slice.index Slice.toList
  have hlen : 0 < s.len := by
    rcases Nat.eq_zero_or_pos s.len with h0 | h0
    · rw [h0] at h; simp at h
    · exact h0
  cases harr : s.arr with
  | nil => rw [harr] at h; simp at h
  | cons a l =>
    refine ⟨a, ?_, ?_⟩
    · have : (0 : Int) < (s.len : Int) := by exact_mod_cast hlen
      simp [this]
    · obtain ⟨k, hk⟩ : ∃ k, s.len = k + 1 := ⟨s.len - 1, by omega⟩
      simp [hk]

/-- With its four animations bound, `update` returns; it leaves the animations alone, takes the
facing direction as state, and the counter is 0 after a change of state and has grown by `dt`
otherwise. -/
theorem sarahAnimation.update_ok (sa : sarahAnimation) (dt : ℚ) (phys : sarahPhys)
    (h : FourBound sa.anims) :
    ∃ sa1, sa.update dt phys = .ok sa1 ∧ sa1.anims = sa.anims ∧ sa1.state = phys.dir ∧
      sa1.counter = if sa.state ≠ phys.dir then 0 else sa.counter + dt := by
  obtain ⟨hS, hE, hN, hW⟩ := h
  obtain ⟨fS, hfS, _⟩ := Slice.index_zero_of_toList_ne_nil _ hS
  obtain ⟨fE, hfE, _⟩ := Slice.index_zero_of_toList_ne_nil _ hE
  obtain ⟨fN, hfN, _⟩ := Slice.index_zero_of_toList_ne_nil _ hN
  obtain ⟨fW, hfW, _⟩ := Slice.index_zero_of_toList_ne_nil _ hW
  have d1 : east ≠ south := by decide
  have d2 : north ≠ south := by decide
  have d3 : north ≠ east := by decide
  have d4 : west ≠ south := by decide
  have d5 : west ≠ east := by decide
  have d6 : west ≠ north := by decide
  unfold sarahAnimation.update
  by_cases hne : sa.state ≠ phys.dir
  · simp only [hne, ne_eq, not_false_eq_true, if_true]
    by_cases h0 : phys.dir = south
    · simp [h0, hfS]
    · by_cases h1 : phys.dir = east
      · simp [h1, hfE, d1]
      · by_cases h2 : phys.dir = north
        · simp [h2, hfN, d2, d3]
        · by_cases h3 : phys.dir = west
          · simp [h3, hfW, d4, d5, d6]
          · simp [h0, h1, h2, h3]
  · have heq : sa.state = phys.dir := not_not.mp hne
    simp only [hne, if_false]
    by_cases h0 : sa.state = south
    · simp [h0, hfS, ← heq]
    · by_cases h1 : sa.state = east
      · simp [h1, hfE, d1, ← heq]
      · by_cases h2 : sa.state = north
        · simp [h2, hfN, d2, d3, ← heq]
        · by_cases h3 : sa.state = west
          · simp [h3, hfW, d4, d5, d6, ← heq]
          · simp [h0, h1, h2, h3, ← heq]

/-- C2: `sarahPhys.update` sets the facing direction from the sign of the control velocity, for
every elapsed time: East if `vx > 0`, West if `vx < 0`, South if `vx = 0` and `vy < 0`, North if
`vx = 0` and `vy > 0`, and the previous direction if both are 0; so `(1,1)` gives East, `(-1,1)`
West, `(0,-1)` South and `(0,1)` North. -/
theorem sarahPhys_update_dir (gp : sarahPhys) (dt : ℚ) (v : Vec) :
    (0 < v.X → (gp.update dt v).dir = east) ∧
    (v.X < 0 → (gp.update dt v).dir = west) ∧
    (v.X = 0 → v.Y < 0 → (gp.update dt v).dir = south) ∧
    (v.X = 0 → 0 < v.Y → (gp.update dt v).dir = north) ∧
    (v.X = 0 → v.Y = 0 → (gp.update dt v).dir = gp.dir) ∧
    (gp.update dt ⟨1, 1⟩).dir = east ∧ (gp.update dt ⟨-1, 1⟩).dir = west ∧
    (gp.update dt ⟨0, -1⟩).dir = south ∧ (gp.update dt ⟨0, 1⟩).dir = north := by
  refine ⟨?_, ?_, ?_, ?_, ?_, ?_, ?_, ?_, ?_⟩
  · intro h
    simp [sarahPhys.update, h]
  · intro h
    simp [sarahPhys.update, h, not_lt.mpr h.le]
  · intro h0 h
    simp [sarahPhys.update, h0, h]
  · intro h0 h
    simp [sarahPhys.update, h0, h, not_lt.mpr h.le]
  · intro h0 h
    simp [sarahPhys.update, h0, h]
  · norm_num [sarahPhys.update]
  · norm_num [sarahPhys.update]
  · norm_num [sarahPhys.update]
  · norm_num [sarahPhys.update]

/-- C2, at the character of `run` with control `(1,1)` and `(0,-1)`. -/
theorem sarahPhys_update_dir_witness :
    (sarahPhys.update ⟨R (-32) (-32) 32 32, ⟨0, 0⟩, false, north⟩ (1 / 60) ⟨1, 1⟩).dir = east ∧
    (sarahPhys.update ⟨R (-32) (-32) 32 32, ⟨0, 0⟩, false, north⟩ (1 / 60) ⟨0, -1⟩).dir = south :=
  ⟨(sarahPhys_update_dir _ _ _).1 (by norm_num),
    (sarahPhys_update_dir _ _ _).2.2.1 rfl (by norm_num)⟩

/-- C7: when the four animations are bound to non-empty slices and the facing direction differs
from the animator's state, `sarahAnimation.update` returns an animator whose state is the facing
direction and whose counter is exactly 0, whatever the previous counter and the elapsed time. -/
theorem sarahAnimation_update_switch (sa : sarahAnimation) (dt : ℚ) (phys : sarahPhys)
    (hbound : FourBound sa.anims) (hne : phys.dir ≠ sa.state) :
    ∃ sa1, sa.update dt phys = .ok sa1 ∧ sa1.state = phys.dir ∧ sa1.counter = 0 := by
  obtain ⟨sa1, h1, _, h3, h4⟩ := sarahAnimation.update_ok sa dt phys hbound
  refine ⟨sa1, h1, h3, ?_⟩
  rw [h4, if_pos (Ne.symm hne)]

/-- C8, amended: on a tick where the facing direction equals the animator's state,
`sarahAnimation.update` returns, keeps the state, and the counter after it is the counter before
plus `dt`; for `dt >= 0` it is not less than the counter before, and for `dt = 0` it is
unchanged. -/
theorem sarahAnimation_update_counter (sa : sarahAnimation) (dt : ℚ) (phys : sarahPhys)
    (hbound : FourBound sa.anims) (heq : phys.dir = sa.state) :
    ∃ sa1, sa.update dt phys = .ok sa1 ∧ sa1.state = sa.state ∧
      sa1.counter = sa.counter + dt ∧ (0 ≤ dt → sa.counter ≤ sa1.counter) ∧
      (dt = 0 → sa1.counter = sa.counter) := by
  obtain ⟨sa1, h1, _, h3, h4⟩ := sarahAnimation.update_ok sa dt phys hbound
  have hc : sa1.counter = sa.counter + dt := by
    rw [h4, if_neg (not_not.mpr heq.symm)]
  refine ⟨sa1, h1, by rw [h3, heq], hc, ?_, ?_⟩
  · intro hdt
    rw [hc]
    linarith
  · intro hdt
    rw [hc, hdt, add_zero]

theorem sampleAnims_bound : FourBound sampleAnims := by
  simp [FourBound, sampleAnims, Slice.toList]

/-- C7, at the animator of `run` (state South) when the character faces East. -/
theorem sarahAnimation_update_switch_witness :
    ∃ sa1, (initialCharacter sampleAnims).anim.update (1 / 60)
        ⟨R (-31) (-32) 33 32, ⟨1, 0⟩, false, east⟩ = .ok sa1 ∧
      sa1.state = east ∧ sa1.counter = 0 :=
  sarahAnimation_update_switch (initialCharacter sampleAnims).anim (1 / 60)
    ⟨R (-31) (-32) 33 32, ⟨1, 0⟩, false, east⟩ sampleAnims_bound (by decide)

/-- C8, amended, at the animator of `run` with the character still facing South and
`dt = 1/60`. -/
theorem sarahAnimation_update_counter_witness :
    ∃ sa1, (initialCharacter sampleAnims).anim.update (1 / 60)
        (initialCharacter sampleAnims).phys = .ok sa1 ∧
      sa1.state = (initialCharacter sampleAnims).anim.state ∧
      sa1.counter = (initialCharacter sampleAnims).anim.counter + 1 / 60 ∧
      ((0 : ℚ) ≤ 1 / 60 → (initialCharacter sampleAnims).anim.counter ≤ sa1.counter) ∧
      ((1 / 60 : ℚ) = 0 → sa1.counter = (initialCharacter sampleAnims).anim.counter) :=
  sarahAnimation_update_counter (initialCharacter sampleAnims).anim (1 / 60)
    (initialCharacter sampleAnims).phys sampleAnims_bound rfl

/-- C8 fails as stated: with `dt = 0`, which satisfies `dt >= 0`, and the facing direction equal
to the animator's state, the update returns and the counter is not greater than before. -/
theorem sarahAnimation_update_counter_not_strict :
    (0 : ℚ) ≤ 0 ∧
    (initialCharacter sampleAnims).phys.dir = (initialCharacter sampleAnims).anim.state ∧
    ∃ sa1, (initialCharacter sampleAnims).anim.update 0
        (initialCharacter sampleAnims).phys = .ok sa1 ∧
      ¬ ((initialCharacter sampleAnims).anim.counter < sa1.counter) := by
  refine ⟨le_refl _, rfl, ?_⟩
  obtain ⟨sa1, h1, _, _, h4⟩ := sarahAnimation.update_ok (initialCharacter sampleAnims).anim 0
    (initialCharacter sampleAnims).phys sampleAnims_bound
  refine ⟨sa1, h1, ?_⟩
  rw [h4]
  simp [initialCharacter]

theorem sarahPhys_update_dir_zero (gp : sarahPhys) (dt : ℚ) :
    (gp.update dt ⟨0, 0⟩).dir = gp.dir := by
  simp [sarahPhys.update]

theorem tick_ok (c : Character) (dt : ℚ) (ctrl : Vec) (h : FourBound c.anim.anims) :
    ∃ c1, tick c dt ctrl = .ok c1 ∧ c1.phys = c.phys.update dt ctrl ∧
      c1.anim.anims = c.anim.anims ∧ c1.anim.state = c1.phys.dir ∧
      c1.anim.counter =
        if c.anim.state ≠ (c.phys.update dt ctrl).dir then 0 else c.anim.counter + dt := by
  obtain ⟨sa1, h1, h2, h3, h4⟩ := sarahAnimation.update_ok c.anim dt (c.phys.update dt ctrl) h
  refine ⟨⟨c.phys.update dt ctrl, sa1⟩, ?_, rfl, h2, h3, h4⟩
  simp [tick, h1]

theorem ticks_ok (inputs : List (ℚ × Vec)) : ∀ c : Character, FourBound c.anim.anims →
    c.anim.state = c.phys.dir →
    ∃ c1, ticks c inputs = .ok c1 ∧ c1.anim.anims = c.anim.anims ∧
      c1.anim.state = c1.phys.dir := by
  induction inputs with
  | nil =>
    intro c _ hs
    exact ⟨c, rfl, rfl, hs⟩
  | cons i rest ih =>
    intro c hb _
    obtain ⟨dt, ctrl⟩ := i
    obtain ⟨c1, h1, _, h3, h4, _⟩ := tick_ok c dt ctrl hb
    obtain ⟨c2, k1, k2, k3⟩ := ih c1 (by rw [h3]; exact hb) h4
    refine ⟨c2, ?_, by rw [k2, h3], k3⟩
    simp [ticks, h1, k1]

/-- C4: with the four animations bound to non-empty slices, every sequence of ticks from the
initial character (facing South, state South, counter 0) returns a character whose animation
state equals its facing direction; and a further tick with velocity `(0,0)` returns a character
with the same facing direction, the same animation state and the counter grown by `dt`. -/
theorem ticks_state_eq_dir (anims : FrameMap) (inputs : List (ℚ × Vec))
    (hbound : FourBound anims) :
    ∃ c, ticks (initialCharacter anims) inputs = .ok c ∧ c.anim.state = c.phys.dir ∧
      ∀ dt : ℚ, ∃ c1, tick c dt ⟨0, 0⟩ = .ok c1 ∧ c1.phys.dir = c.phys.dir ∧
        c1.anim.state = c.anim.state ∧ c1.anim.counter = c.anim.counter + dt := by
  obtain ⟨c, h1, h2, h3⟩ := ticks_ok inputs (initialCharacter anims) hbound rfl
  refine ⟨c, h1, h3, ?_⟩
  intro dt
  obtain ⟨c1, k1, k2, _, k4, k5⟩ := tick_ok c dt ⟨0, 0⟩ (by rw [h2]; exact hbound)
  have hdir : (c.phys.update dt ⟨0, 0⟩).dir = c.phys.dir :=
    (sarahPhys_update_dir_zero c.phys dt)
  refine ⟨c1, k1, by rw [k2, hdir], by rw [k4, k2, hdir, h3], ?_⟩
  rw [k5, hdir, if_neg (not_not.mpr h3)]

/-- C4, at a run of two ticks: control `(1,1)`, then no control. -/
theorem ticks_state_eq_dir_witness :
    ∃ c, ticks (initialCharacter sampleAnims) [(1 / 60, ⟨1, 1⟩), (1 / 60, ⟨0, 0⟩)] = .ok c ∧
      c.anim.state = c.phys.dir ∧
      ∀ dt : ℚ, ∃ c1, tick c dt ⟨0, 0⟩ = .ok c1 ∧ c1.phys.dir = c.phys.dir ∧
        c1.anim.state = c.anim.state ∧ c1.anim.counter = c.anim.counter + dt :=
  ticks_state_eq_dir sampleAnims [(1 / 60, ⟨1, 1⟩), (1 / 60, ⟨0, 0⟩)] sampleAnims_bound

/-! ## Binding descriptor records -/

theorem Slice.slice_ok_iff {α : Type} (s : Slice α) (lo hi : Int) (t : Slice α) :
    s.slice lo hi = .ok t ↔
      (0 ≤ lo ∧ lo ≤ hi ∧ hi ≤ s.cap) ∧ t = ⟨s.arr.drop lo.toNat, (hi - lo).toNat⟩ := by
  unfold Slice.slice Slice.cap
  by_cases h : 0 ≤ lo ∧ lo ≤ hi ∧ hi ≤ (s.arr.length : Int)
  · simp only [h, and_self, if_true, true_and]
    constructor
    · intro h1; cases h1; rfl
    · intro h1; rw [h1]
  · simp only [h, if_false, false_and, iff_false]
    intro h1; cases h1

theorem Slice.slice_error_iff {α : Type} (s : Slice α) (lo hi : Int) :
    (∃ e, s.slice lo hi = .error e) ↔ ¬ (0 ≤ lo ∧ lo ≤ hi ∧ hi ≤ s.cap) := by
  unfold Slice.slice Slice.cap
  by_cases h : 0 ≤ lo ∧ lo ≤ hi ∧ hi ≤ (s.arr.length : Int)
  · simp [h]
  · simp [h]

/-- Inside the length, `s[lo:hi]` holds the elements `s[lo], ..., s[hi-1]`. -/
theorem Slice.slice_index {α : Type} (s : Slice α) (hwf : s.WF) (lo hi : Int) (h0 : 0 ≤ lo)
    (h1 : lo ≤ hi) (h2 : hi ≤ s.len) :
    ∃ t, s.slice lo hi = .ok t ∧ t.WF ∧ (t.len : Int) = hi - lo ∧
      ∀ i : Nat, (i : Int) < hi - lo → ∃ x, s.index (lo + i) = .ok x ∧ t.index i = .ok x := by
  have hwf1 := hwf
  unfold Slice.WF at hwf1
  have hcap : hi ≤ (s.cap : Int) := by unfold Slice.cap; omega
  refine ⟨⟨s.arr.drop lo.toNat, (hi - lo).toNat⟩, ?_, ?_, ?_, ?_⟩
  · rw [Slice.slice_ok_iff]
    exact ⟨⟨h0, h1, hcap⟩, rfl⟩
  · unfold Slice.WF
    simp only [List.length_drop]
    omega
  · simp only
    omega
  · intro i hi1
    have hlt : lo.toNat + i < s.arr.length := by omega
    refine ⟨s.arr[lo.toNat + i], ?_, ?_⟩
    · rw [Slice.index_ok_iff s hwf]
      refine ⟨by omega, by omega, ?_⟩
      have e : (lo + (i : Int)).toNat = lo.toNat + i := by omega
      rw [e]
      unfold Slice.toList
      rw [List.getElem?_take_of_lt (by omega), List.getElem?_eq_getElem hlt]
    · unfold Slice.index
      have hc : (0 : Int) ≤ (i : Int) ∧ (i : Int) < ((hi - lo).toNat : Int) := by omega
      simp only [hc, and_self, if_true, Int.toNat_ofNat, List.get?_eq_getElem?,
        List.getElem?_drop, List.getElem?_eq_getElem hlt]

theorem bindRecord_ok_iff (frames : Slice (Slice Rect)) (anims : FrameMap) (d : Desc)
    (m : FrameMap) :
    bindRecord frames anims d = .ok m ↔
      ∃ row s, frames.index d.row = .ok row ∧ row.slice d.start (d.end_ + 1) = .ok s ∧
        m = Function.update anims d.name s := by
  unfold bindRecord
  cases h1 : frames.index d.row with
  | error e => simp
  | ok row =>
    cases h2 : row.slice d.start (d.end_ + 1) with
    | error e => simp [h2]
    | ok s =>
      simp only [h2, Except.ok.injEq, exists_and_left, exists_eq_left']
      exact eq_comm

theorem bindRecords_keeps (frames : Slice (Slice Rect)) (bad : Option String) (n : String) :
    ∀ (recs : List Desc) (m0 m : FrameMap), bindRecords frames recs bad m0 = .ok m →
      (∀ e ∈ recs, e.name ≠ n) → m n = m0 n := by
  intro recs
  induction recs with
  | nil =>
    intro m0 m h _
    cases bad with
    | none => simp only [bindRecords, Except.ok.injEq] at h; rw [h]
    | some msg => simp [bindRecords] at h
  | cons d rest ih =>
    intro m0 m h hne
    simp only [bindRecords] at h
    cases h1 : bindRecord frames m0 d with
    | error e => rw [h1] at h; cases h
    | ok m1 =>
      rw [h1] at h
      obtain ⟨row, s, _, _, hm⟩ := (bindRecord_ok_iff _ _ _ _).mp h1
      have hr := ih m1 m h (fun e he => hne e (List.mem_cons_of_mem _ he))
      have hd : n ≠ d.name := fun hc => hne d (List.mem_cons_self _ _) hc.symm
      rw [hr, hm, Function.update_noteq hd]

/-- A record that no later record rebinds is bound to its slice of the grid. -/
theorem bindRecords_bound (frames : Slice (Slice Rect)) (bad : Option String) (d : Desc)
    (post : List Desc) (hpost : ∀ e ∈ post, e.name ≠ d.name) :
    ∀ (pre : List Desc) (m0 m : FrameMap),
      bindRecords frames (pre ++ d :: post) bad m0 = .ok m →
      ∃ row, frames.index d.row = .ok row ∧ row.slice d.start (d.end_ + 1) = .ok (m d.name) := by
  intro pre
  induction pre with
  | nil =>
    intro m0 m h
    simp only [List.nil_append, bindRecords] at h
    cases h1 : bindRecord frames m0 d with
    | error e => rw [h1] at h; cases h
    | ok m1 =>
      rw [h1] at h
      obtain ⟨row, s, hrow, hs, hm⟩ := (bindRecord_ok_iff _ _ _ _).mp h1
      refine ⟨row, hrow, ?_⟩
      rw [bindRecords_keeps frames bad d.name post m1 m h hpost, hm, Function.update_same]
      exact hs
  | cons e pre ih =>
    intro m0 m h
    simp only [List.cons_append, bindRecords] at h
    cases h1 : bindRecord frames m0 e with
    | error e => rw [h1] at h; cases h
    | ok m1 =>
      rw [h1] at h
      exact ih m1 m h

/-- Records that can each be bound are all bound: the loop returns a table. -/
theorem bindRecords_ok (frames : Slice (Slice Rect)) :
    ∀ (recs : List Desc) (m0 : FrameMap),
      (∀ e ∈ recs, ∃ row s, frames.index e.row = .ok row ∧
        row.slice e.start (e.end_ + 1) = .ok s) →
      ∃ m, bindRecords frames recs none m0 = .ok m := by
  intro recs
  induction recs with
  | nil => intro m0 _; exact ⟨m0, rfl⟩
  | cons d rest ih =>
    intro m0 h
    obtain ⟨row, s, h1, h2⟩ := h d (List.mem_cons_self _ _)
    have hb : bindRecord frames m0 d = .ok (Function.update m0 d.name s) :=
      (bindRecord_ok_iff _ _ _ _).mpr ⟨row, s, h1, h2, rfl⟩
    obtain ⟨m, hm⟩ := ih (Function.update m0 d.name s)
      (fun e he => h e (List.mem_cons_of_mem _ he))
    exact ⟨m, by simp only [bindRecords, hb]; exact hm⟩

theorem loadAnimationSheet_ok_iff (grow : Nat → Nat → Nat) (fuel : Nat) (sheet : Rect)
    (desc : CsvFile) (F : ℚ) (g : Slice (Slice Rect)) (hg : sliceSheet grow fuel sheet F = .ok g)
    (anims : FrameMap) :
    loadAnimationSheet grow fuel (.ok sheet) (.ok desc) F = .ok (sheet, anims) ↔
      bindRecords g desc.records desc.bad emptyFrameMap = .ok anims := by
  unfold loadAnimationSheet
  simp only [hg]
  cases h : bindRecords g desc.records desc.bad emptyFrameMap with
  | error e => simp
  | ok m => simp

/-- C5: let the slicing loop return the grid `g` (it does, given a positive frame size and enough
fuel).  If every record of the descriptor lies in the grid, `loadAnimationSheet` returns a table;
and whenever it returns a table `anims`, every record `(name, row, start, end)` that lies in the
grid and is not rebound by a later record has `len(anims[name]) = end - start + 1` and
`anims[name][i] = g[row][start + i]` for every `0 <= i <= end - start`.  `NewMapFromText` runs the
same two loops. -/
theorem loadAnimationSheet_binds (grow : Nat → Nat → Nat) (fuel : Nat) (sheet : Rect)
    (desc : CsvFile) (F : ℚ) (hF : 0 < F)
    (hfuel : gridRows sheet.Max.Y F + gridCols sheet.Max.X F < fuel) :
    ∃ g, sliceSheet grow fuel sheet F = .ok g ∧
      ((∀ e ∈ desc.records, InGrid sheet F e) → desc.bad = none →
        ∃ anims, loadAnimationSheet grow fuel (.ok sheet) (.ok desc) F = .ok (sheet, anims)) ∧
      ∀ anims, loadAnimationSheet grow fuel (.ok sheet) (.ok desc) F = .ok (sheet, anims) →
        ∀ pre d post, desc.records = pre ++ d :: post → (∀ e ∈ post, e.name ≠ d.name) →
          InGrid sheet F d →
          ∃ row, g.index d.row = .ok row ∧
            ((anims d.name).len : Int) = d.end_ - d.start + 1 ∧
            ∀ i : Nat, (i : Int) ≤ d.end_ - d.start →
              ∃ f, row.index (d.start + i) = .ok f ∧ (anims d.name).index i = .ok f := by
  obtain ⟨g, hg, hwf, hlen, hrows⟩ := sliceSheet_index grow fuel sheet F hF hfuel
  have key : ∀ d : Desc, InGrid sheet F d → ∃ row, g.index d.row = .ok row ∧
      ∃ t, row.slice d.start (d.end_ + 1) = .ok t ∧ (t.len : Int) = d.end_ + 1 - d.start ∧
        ∀ i : Nat, (i : Int) < d.end_ + 1 - d.start →
          ∃ x, row.index (d.start + i) = .ok x ∧ t.index i = .ok x := by
    intro d hd
    obtain ⟨h0, h1, h2, h3, h4⟩ := hd
    obtain ⟨row, hrow, hrwf, hrlen, _, _⟩ := hrows d.row.toNat (by omega)
    have e : ((d.row.toNat : Nat) : Int) = d.row := Int.toNat_of_nonneg h0
    rw [e] at hrow
    obtain ⟨t, ht, _, htl, hti⟩ := Slice.slice_index row hrwf d.start (d.end_ + 1) h2
      (by omega) (by omega)
    exact ⟨row, hrow, t, ht, htl, hti⟩
  refine ⟨g, hg, ?_, ?_⟩
  · intro hall hbad
    obtain ⟨m, hm⟩ := bindRecords_ok g desc.records emptyFrameMap (fun e he => by
      obtain ⟨row, hrow, t, ht, _⟩ := key e (hall e he)
      exact ⟨row, t, hrow, ht⟩)
    refine ⟨m, ?_⟩
    rw [loadAnimationSheet_ok_iff grow fuel sheet desc F g hg, hbad]
    exact hm
  · intro anims hload pre d post hsplit hpost hd
    rw [loadAnimationSheet_ok_iff grow fuel sheet desc F g hg, hsplit] at hload
    obtain ⟨row, hrow, hs⟩ := bindRecords_bound g desc.bad d post hpost pre _ _ hload
    obtain ⟨row1, hrow1, t, ht, htl, hti⟩ := key d hd
    rw [hrow] at hrow1
    cases hrow1
    rw [hs] at ht
    cases ht
    refine ⟨row, hrow, by omega, ?_⟩
    intro i hi
    exact hti i (by omega)

/-- C5, at the record `("East",1,2,4)` on a 320 x 192 sheet with frame size 64: the bound
sequence has length 3 and holds the frames `grid[1][2]`, `grid[1][3]`, `grid[1][4]`. -/
theorem loadAnimationSheet_binds_witness :
    ∃ g row anims, sliceSheet doubling 9 (R 0 0 320 192) 64 = .ok g ∧ g.index 1 = .ok row ∧
      loadAnimationSheet doubling 9 (.ok (R 0 0 320 192)) (.ok ⟨[⟨"East", 1, 2, 4⟩], none⟩) 64 =
        .ok (R 0 0 320 192, anims) ∧
      ((anims "East").len : Int) = 3 ∧
      (∃ f, row.index 2 = .ok f ∧ (anims "East").index 0 = .ok f) ∧
      (∃ f, row.index 3 = .ok f ∧ (anims "East").index 1 = .ok f) ∧
      (∃ f, row.index 4 = .ok f ∧ (anims "East").index 2 = .ok f) := by
  have hin : InGrid (R 0 0 320 192) 64 ⟨"East", 1, 2, 4⟩ := by
    norm_num [InGrid, gridRows, gridCols, R]
  obtain ⟨g, hg, hA, hB⟩ := loadAnimationSheet_binds doubling 9 (R 0 0 320 192)
    ⟨[⟨"East", 1, 2, 4⟩], none⟩ 64 (by norm_num) (by norm_num [gridRows, gridCols, R]; decide)
  obtain ⟨anims, ha⟩ := hA (by intro e he; simp only [List.mem_singleton] at he; rw [he]; exact hin)
    rfl
  obtain ⟨row, hrow, hlen, hidx⟩ := hB anims ha [] ⟨"East", 1, 2, 4⟩ [] rfl (by simp) hin
  refine ⟨g, row, anims, hg, hrow, ha, by simpa using hlen, ?_, ?_, ?_⟩
  · simpa using hidx 0 (by norm_num)
  · simpa using hidx 1 (by norm_num)
  · simpa using hidx 2 (by norm_num)

/-- C6 fails as stated: on the grid of the 128 x 192 sheet with frame size 64 (two rows of two
frames) the record `("Idle",0,2,1)` has a `start` that is not a valid column index of row 0, yet
binding it does not fail: `frames[0][2:2]` is the empty slice and `"Idle"` is bound to it. -/
theorem bindRecord_silent_out_of_range :
    ∃ g row m, sliceSheet doubling 5 (R 0 0 128 192) 64 = .ok g ∧ g.index 0 = .ok row ∧
      row.len = 2 ∧ ¬ ((0 : Int) ≤ 2 ∧ (2 : Int) < row.len) ∧
      bindRecord g emptyFrameMap ⟨"Idle", 0, 2, 1⟩ = .ok m ∧ (m "Idle").len = 0 := by
  have hg : sliceSheet doubling 5 (R 0 0 128 192) 64 =
      .ok ⟨[⟨[R 0 128 64 192, R 64 128 128 192], 2⟩, ⟨[R 0 64 64 128, R 64 64 128 128], 2⟩],
        2⟩ := by
    norm_num [sliceSheet, sliceRows, sliceRow, Slice.append, Slice.nil, R, doubling]
  refine ⟨_, ⟨[R 0 128 64 192, R 64 128 128 192], 2⟩, Function.update emptyFrameMap "Idle" ⟨[], 0⟩,
    hg, ?_, rfl, by norm_num, ?_, ?_⟩
  · simp [Slice.index]
  · simp [bindRecord, Slice.index, Slice.slice]
  · simp

/-- C6, amended: on a well formed grid, binding a record fails, and then with an
index-out-of-range panic, exactly when `row` is not a valid row index, or `start < 0`, or
`end + 1 < start`, or `end + 1` exceeds the capacity of the row; every other record is bound,
without error, to the slice `frames[row][start : end+1]` of length `end + 1 - start`. -/
theorem bindRecord_fails_iff (g : Slice (Slice Rect)) (anims : FrameMap) (d : Desc)
    (hwf : g.WF) :
    ((∃ f, bindRecord g anims d = .error f ∧ f.isIndexPanic = true) ↔
      (¬ (0 ≤ d.row ∧ d.row < g.len) ∨
        ∃ row, g.index d.row = .ok row ∧
          (d.start < 0 ∨ d.end_ + 1 < d.start ∨ (row.cap : Int) < d.end_ + 1))) ∧
    (¬ (¬ (0 ≤ d.row ∧ d.row < g.len) ∨
        ∃ row, g.index d.row = .ok row ∧
          (d.start < 0 ∨ d.end_ + 1 < d.start ∨ (row.cap : Int) < d.end_ + 1)) →
      ∃ row s, g.index d.row = .ok row ∧ row.slice d.start (d.end_ + 1) = .ok s ∧
        (s.len : Int) = d.end_ + 1 - d.start ∧
        bindRecord g anims d = .ok (Function.update anims d.name s)) := by
  by_cases hrow : 0 ≤ d.row ∧ d.row < g.len
  · have hne : ¬ ∃ e, g.index d.row = .error e := by
      rw [Slice.index_error_iff g hwf]; exact not_not.mpr hrow
    cases h1 : g.index d.row with
    | error e => exact absurd ⟨e, h1⟩ hne
    | ok row =>
      by_cases hs : 0 ≤ d.start ∧ d.start ≤ d.end_ + 1 ∧ d.end_ + 1 ≤ (row.cap : Int)
      · have h2 : row.slice d.start (d.end_ + 1) =
            .ok ⟨row.arr.drop d.start.toNat, (d.end_ + 1 - d.start).toNat⟩ :=
          (Slice.slice_ok_iff _ _ _ _).mpr ⟨hs, rfl⟩
        have hb : bindRecord g anims d = .ok (Function.update anims d.name
            ⟨row.arr.drop d.start.toNat, (d.end_ + 1 - d.start).toNat⟩) :=
          (bindRecord_ok_iff _ _ _ _).mpr ⟨row, _, h1, h2, rfl⟩
        constructor
        · simp only [hb, hrow, and_self, not_true_eq_false, false_or, Except.ok.injEq,
            exists_eq_left']
          constructor
          · rintro ⟨f, hf, _⟩; cases hf
          · intro h; omega
        · intro _
          refine ⟨row, _, rfl, h2, ?_, hb⟩
          simp only
          omega
      · have h2 : row.slice d.start (d.end_ + 1) = .error .sliceBoundsOutOfRange := by
          unfold Slice.slice; unfold Slice.cap at hs; simp [hs]
        have hb : bindRecord g anims d = .error .sliceBoundsOutOfRange := by
          unfold bindRecord; simp only [h1, h2]
        constructor
        · simp only [hb, hrow, and_self, not_true_eq_false, false_or, Except.ok.injEq,
            exists_eq_left']
          constructor
          · intro _; omega
          · intro _; exact ⟨_, rfl, rfl⟩
        · intro hc
          exfalso
          apply hc
          right
          exact ⟨row, rfl, by omega⟩
  · have h1 : g.index d.row = .error .indexOutOfRange := by
      unfold Slice.index; simp [hrow]
    have hb : bindRecord g anims d = .error .indexOutOfRange := by
      unfold bindRecord; simp only [h1]
    constructor
    · simp only [hb, hrow, not_false_eq_true, true_or, iff_true]
      exact ⟨_, rfl, rfl⟩
    · intro hc
      exact absurd (Or.inl hrow) hc

/-- C6, amended, at the one-row grid of the 128 x 128 sheet: row 5 does not exist and the record
`("Idle",5,0,0)` panics, while `("Idle",0,2,1)` is bound to an empty slice. -/
theorem bindRecord_fails_iff_witness :
    (∃ f, bindRecord ⟨[⟨[R 0 64 64 128, R 64 64 128 128], 2⟩], 1⟩ emptyFrameMap
        ⟨"Idle", 5, 0, 0⟩ = .error f ∧ f.isIndexPanic = true) ∧
    ∃ row s, (⟨[⟨[R 0 64 64 128, R 64 64 128 128], 2⟩], 1⟩ : Slice (Slice Rect)).index 0 =
        .ok row ∧ row.slice 2 (1 + 1) = .ok s ∧ (s.len : Int) = 1 + 1 - 2 ∧
      bindRecord ⟨[⟨[R 0 64 64 128, R 64 64 128 128], 2⟩], 1⟩ emptyFrameMap
        ⟨"Idle", 0, 2, 1⟩ = .ok (Function.update emptyFrameMap "Idle" s) :=
  ⟨(bindRecord_fails_iff ⟨[⟨[R 0 64 64 128, R 64 64 128 128], 2⟩], 1⟩ emptyFrameMap
      ⟨"Idle", 5, 0, 0⟩ (by simp [Slice.WF])).1.mpr (Or.inl (by norm_num)),
    (bindRecord_fails_iff ⟨[⟨[R 0 64 64 128, R 64 64 128 128], 2⟩], 1⟩ emptyFrameMap
      ⟨"Idle", 0, 2, 1⟩ (by simp [Slice.WF])).2
      (by simp [Slice.index, Slice.cap])⟩

/-! ## The tile map -/

theorem sliceSheet_castle : sliceSheet doubling 5 (R 0 0 64 64) 32 =
    .ok ⟨[⟨[R 0 32 32 64, R 32 32 64 64], 2⟩], 1⟩ := by
  norm_num [sliceSheet, sliceRows, sliceRow, Slice.append, Slice.nil, R, doubling]

theorem bindRecords_castle :
    bindRecords ⟨[⟨[R 0 32 32 64, R 32 32 64 64], 2⟩], 1⟩ castleDesc.records castleDesc.bad
      emptyFrameMap =
    .ok (Function.update (Function.update emptyFrameMap "CastleMiddle"
      ⟨[R 0 32 32 64, R 32 32 64 64], 1⟩) "CastleEmpty" ⟨[R 32 32 64 64], 1⟩) := by
  simp [castleDesc, bindRecords, bindRecord, Slice.index, Slice.slice]

/-- C3: on the 2 x 2 text grid with rows `"W "` and `" W"`, a 64 x 64 sheet, frame size 32 and a
descriptor binding `CastleMiddle` and `CastleEmpty`, `NewMapFromText` returns a canvas with
bounds `(0,0,64,64)` on which no tile is drawn: the painting loop reads the file that
`mapSizeFinder` has already read to its end.  Had the loop been given the two lines, it would
have drawn the four tiles with the vectors `(0,64)`, `(32,64)`, `(0,32)`, `(32,32)`. -/
theorem NewMapFromText_paints_nothing :
    NewMapFromText doubling 5 (.ok ⟨["W ", " W"], none⟩) (.ok (R 0 0 64 64)) (.ok castleDesc) 32 =
      .ok ⟨R 0 0 64 64, []⟩ ∧
    (mapSizeFinder ⟨["W ", " W"], none⟩).2.lines = [] ∧
    paintRows (Function.update (Function.update emptyFrameMap "CastleMiddle"
        ⟨[R 0 32 32 64, R 32 32 64 64], 1⟩) "CastleEmpty" ⟨[R 32 32 64 64], 1⟩)
      ["W ", " W"] ⟨R 0 0 64 64, []⟩ 0 64 =
      .ok ⟨R 0 0 64 64, [(R 0 32 32 64, ⟨0, 64⟩), (R 32 32 64 64, ⟨32, 64⟩),
        (R 32 32 64 64, ⟨0, 32⟩), (R 0 32 32 64, ⟨32, 32⟩)]⟩ := by
  have h1 : "W ".utf8ByteSize = 2 := by decide
  have h2 : " W".utf8ByteSize = 2 := by decide
  refine ⟨?_, ?_, ?_⟩
  · unfold NewMapFromText
    simp only [sliceSheet_castle, bindRecords_castle]
    simp [mapSizeFinder, scanSize, paintRows, h1, h2]
  · simp [mapSizeFinder]
  · have hW : mapCharNameMap 'W' = "CastleMiddle" := by decide
    have hS : mapCharNameMap ' ' = "CastleEmpty" := by decide
    have l1 : "W ".toList = ['W', ' '] := rfl
    have l2 : " W".toList = [' ', 'W'] := rfl
    have tW : tileFrameOf (Function.update (Function.update emptyFrameMap "CastleMiddle"
        ⟨[R 0 32 32 64, R 32 32 64 64], 1⟩) "CastleEmpty" ⟨[R 32 32 64 64], 1⟩) 'W' =
        .ok (R 0 32 32 64) := by
      simp [tileFrameOf, hW, Slice.index, Function.update]
    have tS : tileFrameOf (Function.update (Function.update emptyFrameMap "CastleMiddle"
        ⟨[R 0 32 32 64, R 32 32 64 64], 1⟩) "CastleEmpty" ⟨[R 32 32 64 64], 1⟩) ' ' =
        .ok (R 32 32 64 64) := by
      simp [tileFrameOf, hS, Slice.index, Function.update]
    norm_num [paintRows, paintRow, tW, tS, l1, l2]

theorem Slice.index_zero_of_toList_nil {α : Type} (s : Slice α) (h : s.toList = []) :
    s.index 0 = .error .indexOutOfRange := by
  unfold Slice.toList at h
  unfold Slice.index
  rcases List.take_eq_nil_iff.mp h with h0 | h0
  · simp [h0]
  · simp [h0]

theorem mapCharNameMap_unknown (char : Char) (h : char ∉ ['W', 'C', 'D', 'O', ' ']) :
    mapCharNameMap char = "" := by
  simp only [List.mem_cons, List.mem_singleton, not_or, List.mem_nil_iff, or_false] at h
  obtain ⟨hW, hC, hD, hO, hS⟩ := h
  simp [mapCharNameMap, hW, hC, hD, hO, hS]

/-- The lookups of `maps.go` 121-122 on a character without an entry in the table: the tile name
is the empty string and the tile slice is the entry of the empty name; taking its frame 0 is an
index-out-of-range panic when that entry is empty, as it is for every table loaded from a
descriptor without a record of the empty name, and is its first frame otherwise. -/
theorem tileFrameOf_unknown_char (mapTiles : FrameMap) (char : Char)
    (h : char ∉ ['W', 'C', 'D', 'O', ' ']) :
    mapCharNameMap char = "" ∧
    tileFrameOf mapTiles char = (mapTiles "").index 0 ∧
    ((mapTiles "").toList = [] → tileFrameOf mapTiles char = .error .indexOutOfRange) ∧
    ((mapTiles "").toList ≠ [] →
      ∃ f, tileFrameOf mapTiles char = .ok f ∧ (mapTiles "").toList.head? = some f) ∧
    (∀ (g : Slice (Slice Rect)) (recs : List Desc) (bad : Option String),
      bindRecords g recs bad emptyFrameMap = .ok mapTiles → (∀ e ∈ recs, e.name ≠ "") →
      tileFrameOf mapTiles char = .error .indexOutOfRange) := by
  have hn := mapCharNameMap_unknown char h
  have ht : tileFrameOf mapTiles char = (mapTiles "").index 0 := by
    simp [tileFrameOf, hn]
  refine ⟨hn, ht, ?_, ?_, ?_⟩
  · intro he
    rw [ht]
    exact Slice.index_zero_of_toList_nil _ he
  · intro he
    rw [ht]
    exact Slice.index_zero_of_toList_ne_nil _ he
  · intro g recs bad hb hne
    rw [ht, bindRecords_keeps g bad "" recs emptyFrameMap mapTiles hb hne]
    exact Slice.index_zero_of_toList_nil _ (by simp [emptyFrameMap, Slice.nil, Slice.toList])

/-- Whatever lines the map file holds, once the sheet is sliced and the descriptor bound
`NewMapFromText` returns the empty canvas of the size `mapSizeFinder` reports. -/
theorem NewMapFromText_ok (grow : Nat → Nat → Nat) (fuel : Nat) (lines : List String)
    (sheet : Rect) (desc : CsvFile) (F : ℚ) (g : Slice (Slice Rect)) (mapTiles : FrameMap)
    (hg : sliceSheet grow fuel sheet F = .ok g)
    (hb : bindRecords g desc.records desc.bad emptyFrameMap = .ok mapTiles) :
    NewMapFromText grow fuel (.ok ⟨lines, none⟩) (.ok sheet) (.ok desc) F =
      .ok ⟨R 0 0 (((scanSize lines 0 0).1 * 32 : Int) : ℚ)
        (((scanSize lines 0 0).2 * 32 : Int) : ℚ), []⟩ := by
  unfold NewMapFromText
  simp only [hg, hb, mapSizeFinder, paintRows]

/-- C10: for a character that is not `W`, `C`, `D`, `O` or space and a tile table loaded from a
descriptor, the lookup of the tile name falls back to the zero value, the empty string, and the
entry of the empty name is the zero value, the `nil` slice, when the descriptor has no record of
that name; and `NewMapFromText` raises no error on a map text, whatever characters it holds: it
returns a canvas (on which nothing is drawn). -/
theorem NewMapFromText_unknown_char_silent (grow : Nat → Nat → Nat) (fuel : Nat)
    (lines : List String) (sheet : Rect) (desc : CsvFile) (F : ℚ) (g : Slice (Slice Rect))
    (mapTiles : FrameMap) (char : Char) (hchar : char ∉ ['W', 'C', 'D', 'O', ' '])
    (hg : sliceSheet grow fuel sheet F = .ok g)
    (hb : bindRecords g desc.records desc.bad emptyFrameMap = .ok mapTiles) :
    mapCharNameMap char = "" ∧
    ((∀ e ∈ desc.records, e.name ≠ "") → mapTiles "" = Slice.nil) ∧
    ∃ canvas, NewMapFromText grow fuel (.ok ⟨lines, none⟩) (.ok sheet) (.ok desc) F =
      .ok canvas ∧ canvas.draws = [] := by
  refine ⟨mapCharNameMap_unknown char hchar, ?_, ?_⟩
  · intro hne
    rw [bindRecords_keeps g desc.bad "" desc.records emptyFrameMap mapTiles hb hne]
    rfl
  · exact ⟨_, NewMapFromText_ok grow fuel lines sheet desc F g mapTiles hg hb, rfl⟩

/-- C10, at the map text with the single line `"X"`, the 64 x 64 sheet with frame size 32 and
the descriptor `castleDesc`. -/
theorem NewMapFromText_unknown_char_silent_witness :
    'X' ∈ "X".toList ∧ 'X' ∉ ['W', 'C', 'D', 'O', ' '] ∧ mapCharNameMap 'X' = "" ∧
    ∃ canvas, NewMapFromText doubling 5 (.ok ⟨["X"], none⟩) (.ok (R 0 0 64 64))
      (.ok castleDesc) 32 = .ok canvas ∧ canvas.draws = [] :=
  ⟨by decide, by decide,
    (NewMapFromText_unknown_char_silent doubling 5 ["X"] (R 0 0 64 64) castleDesc 32 _ _ 'X'
      (by decide) sliceSheet_castle bindRecords_castle).1,
    (NewMapFromText_unknown_char_silent doubling 5 ["X"] (R 0 0 64 64) castleDesc 32 _ _ 'X'
      (by decide) sliceSheet_castle bindRecords_castle).2.2⟩

/-! ## Lemmas on the float64 slicing loop -/

theorem unit64_pos : 0 < unit64 := by
  unfold unit64; positivity

theorem pow_swap_succ (a b : Nat) : (2 : Nat) ^ (a + 1) * 2 ^ b = 2 ^ a * 2 ^ (b + 1) := by
  rw [pow_succ, pow_succ]; ring

theorem shiftOf_spec (a : Nat) : shiftOf a = 0 ∨ 2 ^ 52 ≤ a / 2 ^ shiftOf a := by
  have step : ∀ s k, (s = 0 ∨ 2 ^ 52 ≤ a / 2 ^ s) →
      (shiftStep a s k = 0 ∨ 2 ^ 52 ≤ a / 2 ^ shiftStep a s k) := by
    intro s k h
    unfold shiftStep
    split
    · rename_i hk; exact Or.inr hk
    · exact h
  have fold : ∀ (l : List Nat) (s : Nat), (s = 0 ∨ 2 ^ 52 ≤ a / 2 ^ s) →
      (l.foldl (shiftStep a) s = 0 ∨ 2 ^ 52 ≤ a / 2 ^ l.foldl (shiftStep a) s) := by
    intro l
    induction l with
    | nil => intro s h; exact h
    | cons k l ih => intro s h; exact ih _ (step s k h)
  exact fold _ 0 (Or.inl rfl)

theorem dvd_of_sandwich (w s U t : Nat) (hU : U = 2 ^ t) (h1 : 2 ^ 52 * 2 ^ s ≤ w * U)
    (h2 : w * U ≤ 2 ^ (52 + 1) * U) : 2 ^ s ∣ w * U := by
  subst hU
  have h3 : 2 ^ (52 + s) ≤ 2 ^ (52 + 1 + t) := by
    rw [pow_add, pow_add 2 (52 + 1) t]; exact le_trans h1 h2
  have h4 : 52 + s ≤ 52 + 1 + t := (Nat.pow_le_pow_iff_right (by norm_num)).mp h3
  rcases Nat.lt_or_ge s (t + 1) with h5 | h5
  · exact Dvd.dvd.mul_left (pow_dvd_pow 2 (by omega)) w
  · have h7 : s = t + 1 := by omega
    have h8 : w * 2 ^ t = 2 ^ 52 * 2 ^ s := by
      apply le_antisymm _ h1
      rw [h7, ← pow_swap_succ 52 t]
      exact h2
    rw [h8]
    exact dvd_mul_left _ _

theorem shiftOf_dvd (w : Nat) (hw : w ≤ 2 ^ 53) : 2 ^ shiftOf (w * unit64) ∣ w * unit64 := by
  rcases shiftOf_spec (w * unit64) with h | h
  · rw [h]; simp
  · have hpos : 0 < 2 ^ shiftOf (w * unit64) := by positivity
    have h1 : 2 ^ 52 * 2 ^ shiftOf (w * unit64) ≤ w * unit64 :=
      (Nat.le_div_iff_mul_le hpos).mp h
    have e53 : (2 : Nat) ^ 53 = 2 ^ (52 + 1) := by norm_num
    have h2 : w * unit64 ≤ 2 ^ (52 + 1) * unit64 := by
      rw [← e53]; exact Nat.mul_le_mul_right _ hw
    exact dvd_of_sandwich w _ unit64 1074 rfl h1 h2

/-- Integers of absolute value up to `2^53` are held exactly: rounding leaves them alone. -/
theorem round64_ofInt64 (v : Int) (hv : v.natAbs ≤ 2 ^ 53) : round64 (ofInt64 v) = ofInt64 v := by
  have habs : (ofInt64 v).natAbs = v.natAbs * unit64 := by
    unfold ofInt64; rw [Int.natAbs_mul, Int.natAbs_ofNat]
  have hd := shiftOf_dvd v.natAbs hv
  have hr : v.natAbs * unit64 % 2 ^ shiftOf (v.natAbs * unit64) = 0 := Nat.mod_eq_zero_of_dvd hd
  have hq : v.natAbs * unit64 / 2 ^ shiftOf (v.natAbs * unit64) *
      2 ^ shiftOf (v.natAbs * unit64) = v.natAbs * unit64 := Nat.div_mul_cancel hd
  have hpos : 0 < 2 ^ shiftOf (v.natAbs * unit64) := by positivity
  unfold round64
  simp only [habs, hr, Nat.mul_zero]
  have hno : ¬ (2 ^ shiftOf (v.natAbs * unit64) < 0 ∨
      (0 = 2 ^ shiftOf (v.natAbs * unit64) ∧
        v.natAbs * unit64 / 2 ^ shiftOf (v.natAbs * unit64) % 2 = 1)) := by
    intro h
    rcases h with h | h
    · omega
    · omega
  rw [if_neg hno, hq]
  have hu : (0 : Int) < (unit64 : Int) := by exact_mod_cast unit64_pos
  by_cases hn : ofInt64 v < 0
  · rw [if_pos hn]
    have hv0 : v < 0 := by
      unfold ofInt64 at hn
      by_contra hc
      have : 0 ≤ v * (unit64 : Int) := mul_nonneg (not_lt.mp hc) hu.le
      omega
    unfold ofInt64
    push_cast
    rw [abs_of_neg hv0]
    ring
  · rw [if_neg hn]
    have hv0 : 0 ≤ v := by
      unfold ofInt64 at hn
      by_contra hc
      have : v * (unit64 : Int) < 0 := mul_neg_of_neg_of_pos (not_le.mp hc) hu
      omega
    unfold ofInt64
    push_cast
    rw [abs_of_nonneg hv0]

theorem ofInt64_le (a b : Int) : ofInt64 a ≤ ofInt64 b ↔ a ≤ b := by
  have hu : (0 : Int) < (unit64 : Int) := by exact_mod_cast unit64_pos
  unfold ofInt64
  exact mul_le_mul_right hu

theorem add64_ofInt64 (a b : Int) (h0 : 0 ≤ a + b) (h1 : a + b ≤ 2 ^ 53) :
    add64 (ofInt64 a) (ofInt64 b) = ofInt64 (a + b) := by
  have e : ofInt64 a + ofInt64 b = ofInt64 (a + b) := by unfold ofInt64; ring
  unfold add64
  rw [e]
  exact round64_ofInt64 _ (by omega)

theorem sub64_ofInt64 (a b : Int) (h0 : -(2 ^ 53) ≤ a - b) (h1 : a - b ≤ 2 ^ 53) :
    sub64 (ofInt64 a) (ofInt64 b) = ofInt64 (a - b) := by
  have e : ofInt64 a - ofInt64 b = ofInt64 (a - b) := by unfold ofInt64; ring
  unfold sub64
  rw [e]
  exact round64_ofInt64 _ (by omega)

theorem sliceRow64_spec (grow : Nat → Nat → Nat) (F W y : Int) (hF : 0 < F)
    (hFb : F ≤ 2 ^ 52) (hW : W ≤ 2 ^ 52) (hy0 : 0 ≤ y) (hy : y + F ≤ 2 ^ 53) :
    ∀ (n : Nat) (x : Int) (row : Slice Rect64) (fuel : Nat), row.WF → 0 ≤ x → x ≤ W →
      (n = 0 ∨ x + n * F ≤ W) → W < x + (n + 1) * F → n < fuel →
      ∃ row1, sliceRow64 grow (ofInt64 F) (ofInt64 W) (ofInt64 y) fuel (ofInt64 x) row =
          .ok row1 ∧ row1.WF ∧
        row1.toList = row.toList ++ (List.range n).map (fun k : Nat =>
          R64 (ofInt64 (x + k * F)) (ofInt64 y) (ofInt64 (x + (k + 1) * F))
            (ofInt64 (y + F))) := by
  intro n
  induction n with
  | zero =>
    intro x row fuel hwf hx0 hxW _ hlt hfuel
    obtain ⟨f, rfl⟩ : ∃ f, fuel = f + 1 := ⟨fuel - 1, by omega⟩
    refine ⟨row, ?_, hwf, by simp⟩
    have hadd := add64_ofInt64 x F (by omega) (by omega)
    have : ¬ (ofInt64 (x + F) ≤ ofInt64 W) := by
      rw [ofInt64_le]
      simp only [Nat.cast_zero, zero_add, one_mul] at hlt
      omega
    simp [sliceRow64, hadd, this]
  | succ n ih =>
    intro x row fuel hwf hx0 hxW hle hlt hfuel
    obtain ⟨f, rfl⟩ : ∃ f, fuel = f + 1 := ⟨fuel - 1, by omega⟩
    have hle1 : x + ((n : Int) + 1) * F ≤ W := by
      rcases hle with h | h
      · omega
      · push_cast at h; exact h
    have hnF : 0 ≤ (n : Int) * F := mul_nonneg (Int.ofNat_nonneg n) hF.le
    have hstep : x + F ≤ W := by nlinarith
    have hadd := add64_ofInt64 x F (by omega) (by omega)
    have hyadd := add64_ofInt64 y F (by omega) hy
    obtain ⟨row1, h1, h2, h3⟩ := ih (x + F)
      (row.append (grow 32) (R64 (ofInt64 x) (ofInt64 y) (ofInt64 (x + F)) (ofInt64 (y + F)))) f
      (Slice.append_WF _ _ _ hwf) (by omega) hstep
      (Or.inr (by linarith)) (by push_cast at hlt; linarith) (by omega)
    refine ⟨row1, ?_, h2, ?_⟩
    · have hc : ofInt64 (x + F) ≤ ofInt64 W := (ofInt64_le _ _).mpr hstep
      simp only [sliceRow64, hadd, hyadd, hc, if_true]
      exact h1
    · rw [h3, Slice.append_toList _ _ _ hwf, List.range_succ_eq_map]
      simp only [List.append_assoc, List.singleton_append, List.map_cons, List.map_map]
      congr 1
      congr 1
      · simp
      · apply List.map_congr_left
        intro k _
        simp only [Function.comp, Nat.cast_succ]
        congr 2 <;> ring

theorem sliceRows64_spec (grow : Nat → Nat → Nat) (F W H : Int) (hF : 0 < F)
    (hFb : F ≤ 2 ^ 52) (hW0 : 0 ≤ W) (hW : W ≤ 2 ^ 52) (hH : H ≤ 2 ^ 52) (n : Nat)
    (hn : n = 0 ∨ (n : Int) * F ≤ W) (hn1 : W < ((n : Int) + 1) * F) :
    ∀ (m : Nat) (y : Int) (frames : Slice (Slice Rect64)) (fuel : Nat), frames.WF →
      (∀ s ∈ frames.toList, s.WF) → y ≤ H - F → (m = 0 ∨ (m : Int) * F ≤ y) →
      y < ((m : Int) + 1) * F → m + n < fuel →
      ∃ frames1, sliceRows64 grow (ofInt64 F) (ofInt64 W) fuel (ofInt64 y) frames =
          .ok frames1 ∧ frames1.WF ∧ (∀ s ∈ frames1.toList, s.WF) ∧
        frames1.toList.map Slice.toList = frames.toList.map Slice.toList ++
          (List.range m).map (fun r : Nat => (List.range n).map (fun c : Nat =>
            R64 (ofInt64 (c * F)) (ofInt64 (y - r * F)) (ofInt64 ((c + 1) * F))
              (ofInt64 (y - r * F + F)))) := by
  intro m
  induction m with
  | zero =>
    intro y frames fuel hwf hall _ _ hlt hfuel
    obtain ⟨f, rfl⟩ : ∃ f, fuel = f + 1 := ⟨fuel - 1, by omega⟩
    refine ⟨frames, ?_, hwf, hall, by simp⟩
    have : ¬ (ofInt64 F ≤ ofInt64 y) := by
      rw [ofInt64_le]
      simp only [Nat.cast_zero, zero_add, one_mul] at hlt
      omega
    simp [sliceRows64, this]
  | succ m ih =>
    intro y frames fuel hwf hall hyH hle hlt hfuel
    obtain ⟨f, rfl⟩ : ∃ f, fuel = f + 1 := ⟨fuel - 1, by omega⟩
    have hle1 : ((m : Int) + 1) * F ≤ y := by
      rcases hle with h | h
      · omega
      · push_cast at h; exact h
    have hmF : 0 ≤ (m : Int) * F := mul_nonneg (Int.ofNat_nonneg m) hF.le
    have hstep : F ≤ y := by nlinarith
    have h00 : (0 : Int) = ofInt64 0 := by simp [ofInt64]
    obtain ⟨row, hr1, hr2, hr3⟩ := sliceRow64_spec grow F W y hF hFb hW (by omega) (by omega)
      n 0 Slice.nil f Slice.nil_WF (le_refl 0) hW0
      (by rcases hn with h | h; exact Or.inl h; exact Or.inr (by linarith))
      (by linarith) (by omega)
    rw [← h00] at hr1
    have hsub := sub64_ofInt64 y F (by omega) (by omega)
    have hwf1 := Slice.append_WF (grow 24) frames row hwf
    have hall1 : ∀ s ∈ (frames.append (grow 24) row).toList, s.WF := by
      intro s hs
      rw [Slice.append_toList _ _ _ hwf] at hs
      rcases List.mem_append.mp hs with h | h
      · exact hall s h
      · simp only [List.mem_singleton] at h
        rw [h]; exact hr2
    obtain ⟨frames1, h1, h2, h3, h4⟩ := ih (y - F) (frames.append (grow 24) row) f hwf1 hall1
      (by omega) (Or.inr (by linarith)) (by push_cast at hlt; linarith) (by omega)
    refine ⟨frames1, ?_, h2, h3, ?_⟩
    · have hc : ofInt64 F ≤ ofInt64 y := (ofInt64_le _ _).mpr hstep
      simp only [sliceRows64, ge_iff_le, hc, if_true, hr1, hsub]
      exact h1
    · rw [h4, Slice.append_toList _ _ _ hwf, List.range_succ_eq_map]
      simp only [List.map_append, List.map_cons, List.map_nil, List.append_assoc,
        List.singleton_append, List.map_map]
      congr 1
      congr 1
      · rw [hr3, Slice.nil_toList]
        simp
      · apply List.map_congr_left
        intro r _
        apply List.map_congr_left
        intro c _
        simp only [Function.comp, Nat.cast_succ]
        congr 2 <;> ring

/-- Reading a grid by index: a well formed slice of well formed rows whose contents are the
table `f r c` has `rows` rows of `cols` elements and `g[r][c] = f r c`. -/
theorem Slice.grid_index {α : Type} (g : Slice (Slice α)) (hwf : g.WF)
    (hall : ∀ s ∈ g.toList, s.WF) (rows cols : Nat) (f : Nat → Nat → α)
    (h : g.toList.map Slice.toList =
      (List.range rows).map fun r => (List.range cols).map fun c => f r c) :
    g.len = rows ∧ ∀ r : Nat, r < g.len → ∃ row, g.index r = .ok row ∧ row.len = cols ∧
      ∀ c : Nat, c < row.len → row.index c = .ok (f r c) := by
  have hlen : g.len = rows := by
    rw [← Slice.toList_length g hwf, ← List.length_map g.toList Slice.toList, h]
    simp
  refine ⟨hlen, ?_⟩
  intro r hr
  have hr1 : r < g.toList.length := by rw [Slice.toList_length g hwf]; exact hr
  have hrow : g.toList[r]? = some (g.toList[r]) := List.getElem?_eq_getElem hr1
  have hrwf := hall _ (List.getElem_mem hr1)
  have hmap : (g.toList.map Slice.toList)[r]? = some (g.toList[r]).toList := by
    simp [List.getElem?_map, hrow]
  have hrr : r < rows := by omega
  rw [h] at hmap
  simp only [List.getElem?_map, List.getElem?_range hrr, Option.map_some', Option.some.injEq]
    at hmap
  have hrl : (g.toList[r]).len = cols := by
    rw [← Slice.toList_length _ hrwf, ← hmap]
    simp
  refine ⟨g.toList[r], ?_, hrl, ?_⟩
  · rw [Slice.index_ok_iff g hwf]
    refine ⟨by omega, by omega, ?_⟩
    simp
  · intro c hc
    rw [Slice.index_ok_iff _ hrwf]
    refine ⟨by omega, by omega, ?_⟩
    rw [← hmap]
    have hc1 : c < cols := by omega
    simp [List.getElem?_map, List.getElem?_range hc1]

/-- C9, amended: for a sheet of integer width `W` and height `H` and an integer frame size `F`
with `0 < F` and `W, H, F <= 2^52`, the slicing loop, computed in float64, returns (given enough
fuel) a grid of `H/F - 1` rows of `W/F` frames in which the frame at row `r`, column `c` is
exactly the rectangle with min corner `(c*F, H-(r+1)*F)` and max corner `((c+1)*F, H-r*F)`; it
has width and height `F` and lies inside `[0,W] x [0,H]`; row 0 reaches the top edge `H` and the
rows proceed downwards. -/
theorem sliceSheet64_frame_geometry (grow : Nat → Nat → Nat) (fuel : Nat) (minX minY : Int)
    (W H F : Nat) (hF : 0 < F) (hFb : F ≤ 2 ^ 52) (hW : W ≤ 2 ^ 52) (hH : H ≤ 2 ^ 52)
    (hfuel : (H / F - 1) + W / F < fuel) :
    ∃ g, sliceSheet64 grow fuel (R64 minX minY (ofInt64 W) (ofInt64 H)) (ofInt64 F) = .ok g ∧
      g.len = H / F - 1 ∧
      ∀ r : Nat, r < g.len → ∃ row, g.index r = .ok row ∧ row.len = W / F ∧
        ∀ c : Nat, c < row.len → ∃ rect, row.index c = .ok rect ∧
          rect = R64 (ofInt64 (c * F)) (ofInt64 (H - (r + 1) * F)) (ofInt64 ((c + 1) * F))
            (ofInt64 (H - r * F)) ∧
          rect.W = ofInt64 F ∧ rect.H = ofInt64 F ∧
          0 ≤ rect.Min.X ∧ rect.Max.X ≤ ofInt64 W ∧
          0 ≤ rect.Min.Y ∧ rect.Max.Y ≤ ofInt64 H ∧
          (r = 0 → rect.Max.Y = ofInt64 H) := by
  have hFi : (0 : Int) < (F : Int) := by exact_mod_cast hF
  have hFbi : (F : Int) ≤ 2 ^ 52 := by exact_mod_cast hFb
  have hWi : (W : Int) ≤ 2 ^ 52 := by exact_mod_cast hW
  have hHi : (H : Int) ≤ 2 ^ 52 := by exact_mod_cast hH
  have hW0 : (0 : Int) ≤ (W : Int) := Int.ofNat_nonneg W
  have hH0 : (0 : Int) ≤ (H : Int) := Int.ofNat_nonneg H
  -- the column count
  have hc1 : ((W / F : Nat) : Int) * F ≤ W := by exact_mod_cast Nat.div_mul_le_self W F
  have hc2 : (W : Int) < (((W / F : Nat) : Int) + 1) * F := by
    have := Nat.lt_div_mul_add hF (a := W)
    have h2 : W < (W / F + 1) * F := by rw [Nat.add_mul, Nat.one_mul]; exact this
    exact_mod_cast h2
  -- the row count
  have hq1 : H / F * F ≤ H := Nat.div_mul_le_self H F
  have hq2 : H < (H / F + 1) * F := by
    have := Nat.lt_div_mul_add hF (a := H)
    rw [Nat.add_mul, Nat.one_mul]; exact this
  have hr1 : (H / F - 1 = 0 ∨ ((H / F - 1 : Nat) : Int) * F ≤ (H : Int) - F) := by
    rcases Nat.eq_zero_or_pos (H / F - 1) with h | h
    · exact Or.inl h
    · right
      have e : ((H / F - 1 : Nat) : Int) = ((H / F : Nat) : Int) - 1 := by omega
      have hq1i : ((H / F : Nat) : Int) * F ≤ H := by exact_mod_cast hq1
      rw [e]; linarith
  have hr2 : (H : Int) - F < (((H / F - 1 : Nat) : Int) + 1) * F := by
    have hq2i : (H : Int) < (((H / F : Nat) : Int) + 1) * F := by exact_mod_cast hq2
    rcases Nat.eq_zero_or_pos (H / F) with h | h
    · rw [h] at hq2i ⊢
      simp only [Nat.zero_sub, Nat.cast_zero, zero_add, one_mul] at hq2i ⊢
      omega
    · have e : ((H / F - 1 : Nat) : Int) = ((H / F : Nat) : Int) - 1 := by omega
      rw [e]; linarith
  have hsub := sub64_ofInt64 H F (by omega) (by omega)
  obtain ⟨g, h1, h2, h3, h4⟩ := sliceRows64_spec grow F W H hFi hFbi hW0 hWi hHi (W / F)
    (Or.inr hc1) hc2 (H / F - 1) (H - F) Slice.nil fuel Slice.nil_WF
    (by simp [Slice.nil_toList]) (le_refl _) hr1 hr2 hfuel
  rw [Slice.nil_toList] at h4
  simp only [List.map_nil, List.nil_append] at h4
  obtain ⟨hlen, hidx⟩ := Slice.grid_index g h2 h3 _ _ _ h4
  refine ⟨g, ?_, hlen, ?_⟩
  · unfold sliceSheet64
    simp only [R64, hsub]
    exact h1
  intro r hr
  obtain ⟨row, hrow, hrl, hcol⟩ := hidx r hr
  refine ⟨row, hrow, hrl, ?_⟩
  intro c hc
  have hcle : ((c : Int) + 1) * F ≤ W := by
    have : (c : Int) + 1 ≤ ((W / F : Nat) : Int) := by
      have : c + 1 ≤ W / F := by omega
      exact_mod_cast this
    nlinarith
  have hrle : ((r : Int) + 1) * F ≤ (H : Int) - F := by
    rcases hr1 with h | h
    · omega
    · have : (r : Int) + 1 ≤ ((H / F - 1 : Nat) : Int) := by
        have : r + 1 ≤ H / F - 1 := by omega
        exact_mod_cast this
      nlinarith
  have hc0 : 0 ≤ (c : Int) * F := mul_nonneg (Int.ofNat_nonneg c) hFi.le
  have hr0 : 0 ≤ (r : Int) * F := mul_nonneg (Int.ofNat_nonneg r) hFi.le
  have z : ofInt64 0 = 0 := by simp [ofInt64]
  have e1 : (H : Int) - F - r * F = H - (r + 1) * F := by ring
  have e2 : (H : Int) - (r + 1) * F + F = H - r * F := by ring
  have e3 : ((c : Int) + 1) * F - c * F = F := by ring
  have e4 : (H : Int) - r * F - (H - (r + 1) * F) = F := by ring
  have hrect := hcol c hc
  rw [e1, e2] at hrect
  refine ⟨_, hrect, rfl, ?_, ?_, ?_, ?_, ?_, ?_, ?_⟩
  · simp only [Rect64.W, R64]
    rw [sub64_ofInt64 _ _ (by linarith) (by linarith), e3]
  · simp only [Rect64.H, R64]
    rw [sub64_ofInt64 _ _ (by linarith) (by linarith), e4]
  · simp only [R64]; rw [← z, ofInt64_le]; exact hc0
  · simp only [R64]; rw [ofInt64_le]; exact hcle
  · simp only [R64]; rw [← z, ofInt64_le]; linarith
  · simp only [R64]; rw [ofInt64_le]; linarith
  · intro h0
    simp only [R64, h0, Nat.cast_zero, zero_mul, sub_zero]

/-- C9, amended, at the 320 x 192 sheet with frame size 64: two rows of five frames. -/
theorem sliceSheet64_frame_geometry_witness :
    ∃ g, sliceSheet64 doubling 9 (R64 0 0 (ofInt64 (320 : Nat)) (ofInt64 (192 : Nat)))
        (ofInt64 (64 : Nat)) = .ok g ∧
      g.len = 192 / 64 - 1 ∧
      ∀ r : Nat, r < g.len → ∃ row, g.index r = .ok row ∧ row.len = 320 / 64 ∧
        ∀ c : Nat, c < row.len → ∃ rect, row.index c = .ok rect ∧
          rect = R64 (ofInt64 (c * (64 : Nat))) (ofInt64 ((192 : Nat) - (r + 1) * (64 : Nat)))
            (ofInt64 ((c + 1) * (64 : Nat))) (ofInt64 ((192 : Nat) - r * (64 : Nat))) ∧
          rect.W = ofInt64 (64 : Nat) ∧ rect.H = ofInt64 (64 : Nat) ∧
          0 ≤ rect.Min.X ∧ rect.Max.X ≤ ofInt64 (320 : Nat) ∧
          0 ≤ rect.Min.Y ∧ rect.Max.Y ≤ ofInt64 (192 : Nat) ∧
          (r = 0 → rect.Max.Y = ofInt64 (192 : Nat)) :=
  sliceSheet64_frame_geometry doubling 9 0 0 320 192 64 (by decide) (by norm_num) (by norm_num)
    (by norm_num) (by decide)

/-- C9 fails as stated: on a 1 x 1 sheet with the frame size `0.1` (the float64 nearest to it,
which is positive) the slicing loop, computed in float64, returns 9 rows of 10 frames; the frame
at row 0, column 8 has `Min.X = 7205759403792793 * 2^-53 = 0.7999999999999999`, which is not
`8 * F = 7205759403792794 * 2^-53 = 0.8`, and the width of the frame at row 0, column 2 is not
`F`. -/
theorem sliceSheet64_rounds :
    (0 : Int) < tenth64 ∧
    (sliceSheet64 doubling 40 (R64 0 0 (ofInt64 1) (ofInt64 1)) tenth64).toOption.map
      (fun g => (g.len, g.toList.map fun row => row.len)) =
      some (9, [10, 10, 10, 10, 10, 10, 10, 10, 10]) ∧
    (frameOf64 (sliceSheet64 doubling 40 (R64 0 0 (ofInt64 1) (ofInt64 1)) tenth64) 0 8).map
      (fun f => f.Min.X) = some ((7205759403792793 * 2 ^ 1021 : Nat) : Int) ∧
    round64 (8 * tenth64) = ((7205759403792794 * 2 ^ 1021 : Nat) : Int) ∧
    (8 * tenth64 : Int) = ((7205759403792794 * 2 ^ 1021 : Nat) : Int) ∧
    (frameOf64 (sliceSheet64 doubling 40 (R64 0 0 (ofInt64 1) (ofInt64 1)) tenth64) 0 2).map
      Rect64.W ≠ some tenth64 := by
  decide!

/-- In float64 a positive `dt` can leave a sum unchanged: `1e16 + 1 = 1e16`. -/
theorem add64_absorbs :
    add64 (ofInt64 10000000000000000) (ofInt64 1) = ofInt64 10000000000000000 := by
  decide!

end Powerkids
